import Mathlib

/-!
Verification development for the EDINET value screener's XBRL
fact-extraction core (`scripts/xbrl_parser.py`, `scripts/processor.py`).
The Python sources are shallowly embedded: strings stay strings, Python
`None` becomes `Option`, Python dicts become insertion-ordered association
lists with overwrite-on-insert, raised exceptions become `Except` errors.
-/

namespace Edinet

/-- Python exception kinds that the embedded code can raise.
`valueError` stands for ValueError / TypeError / AttributeError (the three
are indistinguishable to the embedded control flow: `_find_fact_in_contexts`
catches exactly that triple around value parsing), `overflowError` for
OverflowError (never caught), and `debugCrash` for the crash of the debug
instrumentation at `xbrl_parser.py:99` when the document has no
`jpdei_cor:EDINETCodeDEI` element (AttributeError on `None.text`) or its
text is Python `None` (TypeError on `"E03588" in None`). -/
inductive PyErr where
  | valueError
  | overflowError
  | debugCrash
deriving DecidableEq, Repr

/-- Characters removed by Python `str.strip()` (ASCII whitespace; the
source data is ASCII so the Unicode extension is irrelevant here). -/
def isPyWs (c : Char) : Bool :=
  c == ' ' || c == '\t' || c == '\n' || c == '\r' || c == '\x0b' || c == '\x0c'

/-- `str.strip()` on a character list. -/
def stripPyWs (l : List Char) : List Char :=
  ((l.dropWhile isPyWs).reverse.dropWhile isPyWs).reverse

/-- `.replace(",", "")` on a character list. -/
def removeCommas (l : List Char) : List Char :=
  l.filter (fun c => c != ',')

/-- Positional value of a digit list (most significant first). -/
def digitsVal (l : List Char) : Nat :=
  l.foldl (fun a c => 10 * a + (c.toNat - 48)) 0

/-- After the first character, a Python integer literal body is digits where
each underscore is surrounded by digits (`int("1_2") = 12`, `int("1__2")`
and `int("1_")` raise). -/
def digitsRest : List Char → Bool
  | [] => true
  | c :: rest =>
      if c = '_' then
        match rest with
        | [] => false
        | c2 :: rest2 => c2.isDigit && digitsRest rest2
      else c.isDigit && digitsRest rest

/-- Nonempty digit run (with Python's underscore rule) starting with a digit. -/
def validDigitStr (l : List Char) : Bool :=
  match l with
  | [] => false
  | c :: rest => c.isDigit && digitsRest rest

/-- Python `int(str)`: optional surrounding whitespace, optional sign,
then a digit run with underscore grouping. Returns `none` where Python
raises `ValueError`. -/
def pyInt? (s : String) : Option Int :=
  match stripPyWs s.toList with
  | [] => none
  | c :: rest =>
      if c = '+' then
        if validDigitStr rest then some (digitsVal (rest.filter Char.isDigit)) else none
      else if c = '-' then
        if validDigitStr rest then some (-(digitsVal (rest.filter Char.isDigit) : Int)) else none
      else if validDigitStr (c :: rest) then
        some (digitsVal ((c :: rest).filter Char.isDigit))
      else none

/-- Split a character list at the first character satisfying `p`. -/
def splitFirst (p : Char → Bool) : List Char → Option (List Char × List Char)
  | [] => none
  | c :: rest =>
      if p c then some ([], rest)
      else (splitFirst p rest).map (fun q => (c :: q.1, q.2))

/-- Outcome of Python `float(s)` as used by `int(float(s))`. -/
inductive PyFloatOut where
  | notFloat
  | nanVal
  | infVal
  | finiteTrunc (v : Int)
deriving DecidableEq, Repr

/-- Digit run that may be empty (fractional part of `"1."`). -/
def validOptDigitStr (l : List Char) : Bool :=
  l.isEmpty || validDigitStr l

/-- Truncation toward zero of `mant * 10 ^ sc` where `mant` carries
`fracLen` implicit fractional digits. -/
def truncMantissa (intPart fracPart : List Char) (e : Int) : Nat :=
  let m := digitsVal ((intPart ++ fracPart).filter Char.isDigit)
  let sc : Int := e - ((fracPart.filter Char.isDigit).length : Int)
  if 0 ≤ sc then m * 10 ^ sc.toNat else m / 10 ^ (-sc).toNat

/-- The unsigned body of a Python float literal: mantissa (digits, with an
optional decimal point) and optional exponent. Returns the truncated
magnitude, or `none` if the body is not a valid float literal. -/
def pyFloatBody (l : List Char) : Option Nat :=
  let mantExp :=
    match splitFirst (fun c => c == 'e' || c == 'E') l with
    | some (m, ex) =>
        (match ex with
         | '+' :: r => if validDigitStr r then some (m, (digitsVal (r.filter Char.isDigit) : Int)) else none
         | '-' :: r => if validDigitStr r then some (m, -(digitsVal (r.filter Char.isDigit) : Int)) else none
         | r => if validDigitStr r then some (m, (digitsVal (r.filter Char.isDigit) : Int)) else none)
    | none => some (l, (0 : Int))
  match mantExp with
  | none => none
  | some (m, e) =>
      match splitFirst (fun c => c == '.') m with
      | some (ip, fp) =>
          if (validDigitStr ip && validOptDigitStr fp) ||
             (ip.isEmpty && validDigitStr fp) then
            some (truncMantissa ip fp e)
          else none
      | none => if validDigitStr m then some (truncMantissa m [] e) else none

/-- Lower-cased view used for the special float spellings. -/
def lowerList (l : List Char) : List Char := l.map Char.toLower

/-- Python `float(s)` classified for `int(float(s))`: `infVal` makes the
outer `int` raise OverflowError, `nanVal` makes it raise ValueError,
`notFloat` is `float`'s own ValueError. -/
def pyFloatClass (s : String) : PyFloatOut :=
  let l := stripPyWs s.toList
  let signed :=
    match l with
    | '+' :: rest => rest
    | '-' :: rest => rest
    | rest => rest
  let low := lowerList signed
  if low == "inf".toList || low == "infinity".toList then .infVal
  else if low == "nan".toList then .nanVal
  else
    match pyFloatBody signed with
    | some mag =>
        (match l with
         | '-' :: _ => .finiteTrunc (-(mag : Int))
         | _ => .finiteTrunc (mag : Int))
    | none => .notFloat

/-- `xbrl_parser._parse_int_loose` on the cleaned character list: try
`int(s)`, on ValueError fall back to `int(float(s))`. -/
def parseIntCore (s2 : String) : Except PyErr Int :=
  match pyInt? s2 with
  | some v => .ok v
  | none =>
      match pyFloatClass s2 with
      | .finiteTrunc v => .ok v
      | .infVal => .error .overflowError
      | _ => .error .valueError

/-- The `s.startswith("(") and s.endswith(")")` rewrite of `"(N)"` to
`"-N"` (`s[1:-1]` prefixed with `"-"`). -/
def parenRewrite (s : List Char) : List Char :=
  match s with
  | [] => []
  | c :: rest =>
      if c = '(' ∧ rest.getLast? = some ')' then '-' :: rest.dropLast
      else c :: rest

/-- `xbrl_parser._parse_int_loose`: `None` input raises ValueError; else
strip whitespace, delete commas, rewrite a fully parenthesized `"(N)"` to
`"-N"`, then integer parse with float-truncation fallback. -/
def parseIntLoose (txt : Option String) : Except PyErr Int :=
  match txt with
  | none => .error .valueError
  | some t =>
      parseIntCore (String.mk (parenRewrite (removeCommas (stripPyWs t.toList))))

/-! ## XBRL document model

An lxml element tree is abstracted to exactly the queries the Python code
performs on it: the raw `xbrli:context` declarations in document order, the
`xbrli:unit` declarations, the flat list of fact elements (as returned by
`root.xpath("//*[local-name()=...]")` in document order), the namespace
prefix table `root.nsmap`, and the results of the two fixed lookups
`root.find('.//jpdei_cor:EDINETCodeDEI')` and the accounting-standard
element. -/

/-- One `xbrldi:explicitMember` under a context's scenario: its
`dimension` attribute and its text (both may be absent). -/
structure XMember where
  dimension : Option String
  text : Option String
deriving DecidableEq, Repr

/-- The `xbrli:period` child of a context. Outer `Option` = the child
element (`instant` / `startDate` / `endDate`) is present, inner
`Option` = its text (lxml `.text` may be `None`). -/
structure XPeriod where
  instant : Option (Option String)
  startDate : Option (Option String)
  endDate : Option (Option String)
deriving DecidableEq, Repr

/-- One raw `xbrli:context` declaration. `scenario = some ms` means the
`xbrli:scenario` child exists and `ms` lists its `explicitMember`
descendants in document order. -/
structure XContext where
  id : Option String
  period : Option XPeriod
  scenario : Option (List XMember)
deriving DecidableEq, Repr

/-- One `xbrli:unit` declaration: its id and the text of its
`xbrli:measure` descendants. -/
structure XUnit where
  id : String
  measures : List String
deriving DecidableEq, Repr

/-- One fact element: local tag name, resolved namespace URI of its qname
(`etree.QName(el.tag).namespace`), `contextRef` / `unitRef` attributes and
text. -/
structure XElem where
  localName : String
  nsUri : Option String
  contextRef : Option String
  unitRef : Option String
  text : Option String
deriving DecidableEq, Repr

/-- A parsed XBRL instance, abstracted to the queries the code performs.
`edinetCodeDEI` is the result of `root.find('.//jpdei_cor:EDINETCodeDEI')`
(outer `Option` = element found, inner = its text). -/
structure XDoc where
  contextsRaw : List XContext
  units : List XUnit
  elems : List XElem
  nsmap : List (String × String)
  edinetCodeDEI : Option (Option String)
deriving DecidableEq, Repr

/-- Python truthiness of an optional string (`None` and `""` are falsy). -/
def optTruthy (s : Option String) : Bool :=
  match s with
  | none => false
  | some t => t != ""

/-- `str.lower()` (ASCII; the tag, unit and axis strings involved are
ASCII). -/
def lowerStr (s : String) : String := String.mk (s.toList.map Char.toLower)

/-- `str.endswith(suffix)`. -/
def strEndsWith (s suf : String) : Bool :=
  let l := s.toList
  let p := suf.toList
  l.drop (l.length - p.length) == p

/-- Python string `<` (lexicographic by code point) on character lists. -/
def charListLt : List Char → List Char → Bool
  | _, [] => false
  | [], _ :: _ => true
  | a :: as, b :: bs =>
      if a < b then true
      else if b < a then false
      else charListLt as bs

/-- Python string `<` (used by `get_latest_dates` and the filing-selector
sort keys). -/
def strLtB (s t : String) : Bool := charListLt s.toList t.toList

/-- `str.split(sep)` for a one-character separator. -/
def splitOnChar (sep : Char) : List Char → List (List Char)
  | [] => [[]]
  | c :: rest =>
      let r := splitOnChar sep rest
      if c = sep then [] :: r
      else
        match r with
        | [] => [[c]]
        | h :: t => (c :: h) :: t

/-- The structured record `_build_contexts` stores per context id. -/
structure ContextData where
  id : String
  startDate : Option String
  endDate : Option String
  is_duration : Bool
  scope : String
deriving DecidableEq, Repr

/-- Insert into a Python-dict-like association list: overwrite in place if
the key exists, else append. -/
def dictInsert (m : List (String × ContextData)) (k : String) (v : ContextData) :
    List (String × ContextData) :=
  if m.any (fun p => p.1 == k) then
    m.map (fun p => if p.1 == k then (k, v) else p)
  else m ++ [(k, v)]

/-- `dict.get`: the value at a key, if present. -/
def dictGet (m : List (String × ContextData)) (k : String) : Option ContextData :=
  (m.find? (fun p => p.1 == k)).map (fun p => p.2)

/-- Scenario scan of `_build_contexts` (lines 64-70): the first explicit
member whose `dimension` attribute is truthy and ends with
`ConsolidatedOrNonConsolidatedAxis` decides the scope (then `break`);
it yields `"non_consolidated"` exactly when that member's text is truthy
and ends with `NonConsolidatedMember`. -/
def scopeFromMembers : List XMember → String
  | [] => "consolidated"
  | m :: rest =>
      match m.dimension with
      | some d =>
          if d != "" && strEndsWith d "ConsolidatedOrNonConsolidatedAxis" then
            (match m.text with
             | some t =>
                 if t != "" && strEndsWith t "NonConsolidatedMember" then "non_consolidated"
                 else "consolidated"
             | none => "consolidated")
          else scopeFromMembers rest
      | none => scopeFromMembers rest

/-- Scope of one raw context (default `"consolidated"` when there is no
scenario element). -/
def scopeOfContext (c : XContext) : String :=
  match c.scenario with
  | none => "consolidated"
  | some ms => scopeFromMembers ms

/-- Registration of one raw context by `_build_contexts`: skipped when the
id is falsy or the period element is missing; an `instant` child makes an
instant record (endDate = the instant text), otherwise a duration record
with the `startDate`/`endDate` child texts. -/
def buildOneContext (c : XContext) : Option (String × ContextData) :=
  match c.id with
  | none => none
  | some cid =>
      if cid == "" then none
      else
        match c.period with
        | none => none
        | some p =>
            match p.instant with
            | some itext =>
                some (cid, { id := cid, startDate := none, endDate := itext,
                             is_duration := false, scope := scopeOfContext c })
            | none =>
                some (cid, { id := cid,
                             startDate := p.startDate.getD none,
                             endDate := p.endDate.getD none,
                             is_duration := true, scope := scopeOfContext c })

/-- `xbrl_parser._build_contexts`: fold every raw context into the
insertion-ordered map. -/
def buildContexts (doc : XDoc) : List (String × ContextData) :=
  doc.contextsRaw.foldl
    (fun m c =>
      match buildOneContext c with
      | none => m
      | some (cid, cd) => dictInsert m cid cd)
    []

/-- `xbrl_parser._unit_is_jpy`: falsy unitRef fails closed; a unitRef
lower-casing to `"jpy"` short-circuits; otherwise look up the first unit
declaration with that id and test each measure, lower-cased, for the
suffix `":jpy"` or equality with `"jpy"`. -/
def unitIsJpy (doc : XDoc) (unitRef : Option String) : Bool :=
  match unitRef with
  | none => false
  | some u =>
      if u == "" then false
      else if lowerStr u == "jpy" then true
      else
        match doc.units.find? (fun ud => ud.id == u) with
        | none => false
        | some ud =>
            ud.measures.any (fun m => strEndsWith (lowerStr m) ":jpy" || lowerStr m == "jpy")

/-- `tag.split(":")[-1]`. -/
def tagLocal (tag : String) : String :=
  match (splitOnChar ':' tag.toList).getLast? with
  | some t => String.mk t
  | none => tag

/-- `tag.split(":")[0] if ":" in tag else None`. -/
def tagPfx (tag : String) : Option String :=
  let parts := splitOnChar ':' tag.toList
  if parts.length ≤ 1 then none
  else
    match parts with
    | p :: _ => some (String.mk p)
    | [] => none

/-- `ns.get(prefix)`. -/
def nsGet (ns : List (String × String)) (p : String) : Option String :=
  (ns.find? (fun q => q.1 == p)).map (fun q => q.2)

/-- The namespace rejection of `_find_fact_in_contexts` (lines 149-155):
reject when the query tag has a truthy prefix, the namespace table binds it
to a truthy URI, and that URI differs from the element's namespace. -/
def nsMismatch (ns : List (String × String)) (tag : String) (el : XElem) : Bool :=
  match tagPfx tag with
  | none => false
  | some p =>
      if p == "" then false
      else
        match nsGet ns p with
        | none => false
        | some uri =>
            if uri == "" then false
            else el.nsUri != some uri

/-- `root.xpath("//*[local-name()=t]")`: every element with local name `t`,
in document order. -/
def elemsWithLocalName (doc : XDoc) (t : String) : List XElem :=
  doc.elems.filter (fun el => el.localName == t)

/-- The per-element body of `_find_fact_in_contexts`'s inner loop
(lines 114-165): `.ok none` = `continue`, `.ok (some (v, cid))` = the
`return` at line 161, `.error` = an uncaught exception (only
OverflowError from `int(float('inf'))` escapes the catch of
ValueError/TypeError/AttributeError). -/
def checkElem (doc : XDoc) (contexts : List (String × ContextData))
    (ns : List (String × String)) (tag : String) (allowed : List String)
    (needDuration checkUnit : Bool) (el : XElem) : Except PyErr (Option (Int × String)) :=
  if !optTruthy el.contextRef then .ok none
  else if !(allowed.contains (el.contextRef.getD "")) then .ok none
  else
    match dictGet contexts (el.contextRef.getD "") with
    | none => .ok none
    | some ctx =>
        if ctx.is_duration != needDuration then .ok none
        else if checkUnit && !unitIsJpy doc el.unitRef then .ok none
        else if nsMismatch ns tag el then .ok none
        else
          match parseIntLoose el.text with
          | .ok v => .ok (some (v, el.contextRef.getD ""))
          | .error .valueError => .ok none
          | .error e => .error e

/-- Inner loop of `_find_fact_in_contexts` over one tag's candidate
elements: first surviving element wins. -/
def matchElems (doc : XDoc) (contexts : List (String × ContextData))
    (ns : List (String × String)) (tag : String) (allowed : List String)
    (needDuration checkUnit : Bool) : List XElem → Except PyErr (Option (Int × String))
  | [] => .ok none
  | el :: rest =>
      match checkElem doc contexts ns tag allowed needDuration checkUnit el with
      | .ok none => matchElems doc contexts ns tag allowed needDuration checkUnit rest
      | r => r

/-- Search for one query tag: gather candidates by local name, scan them. -/
def searchTag (doc : XDoc) (contexts : List (String × ContextData))
    (ns : List (String × String)) (allowed : List String)
    (needDuration checkUnit : Bool) (tag : String) : Except PyErr (Option (Int × String)) :=
  matchElems doc contexts ns tag allowed needDuration checkUnit
    (elemsWithLocalName doc (tagLocal tag))

/-- Outer loop of `_find_fact_in_contexts` over the priority-ordered tag
list. -/
def findLoop (doc : XDoc) (contexts : List (String × ContextData))
    (ns : List (String × String)) (allowed : List String)
    (needDuration checkUnit : Bool) :
    List String → Except PyErr (Option Int × Option String × Option String)
  | [] => .ok (none, none, none)
  | tag :: rest =>
      match searchTag doc contexts ns allowed needDuration checkUnit tag with
      | .error e => .error e
      | .ok (some (v, cid)) => .ok (some v, some tag, some cid)
      | .ok none => findLoop doc contexts ns allowed needDuration checkUnit rest

/-- `xbrl_parser._find_fact_in_contexts`. Line 99 dereferences
`root.find('.//jpdei_cor:EDINETCodeDEI', root.nsmap).text` before anything
else, so a document whose DEI lookup fails (element absent) or whose DEI
text is `None` raises before any tag is consulted. -/
def findFactInContexts (doc : XDoc) (contexts : List (String × ContextData))
    (ns : List (String × String)) (tagList : List String) (allowed : List String)
    (needDuration checkUnit : Bool) :
    Except PyErr (Option Int × Option String × Option String) :=
  match doc.edinetCodeDEI with
  | some (some _) => findLoop doc contexts ns allowed needDuration checkUnit tagList
  | _ => .error .debugCrash

/-! ## Composite inventory calculation (`_calculate_inventories_value`) -/

/-- The total-inventory priority tags (source lines 179-184). -/
def totalInventoryTags : List String :=
  ["jpigp_cor:InventoriesCAIFRS", "jppfs_cor:Inventories", "Inventories", "InventoriesNet"]

/-- Running state of the component summation: running total, whether any
component was found, and the context id of the first component found. -/
structure CompState where
  total : Int
  foundAny : Bool
  foundCtx : Option String
deriving DecidableEq, Repr

/-- The inner `get_component` helper: look up one component tag; on a hit
add its value, record its context id if it is the first hit, otherwise
contribute zero. -/
def getComponent (doc : XDoc) (contexts : List (String × ContextData))
    (ns : List (String × String)) (allowed : List String) (needDuration : Bool)
    (tag : String) (st : CompState) : Except PyErr CompState := do
  let r ← findFactInContexts doc contexts ns [tag] allowed needDuration true
  match r with
  | (some v, _, cid) =>
      pure { total := st.total + v, foundAny := true,
             foundCtx := if st.foundAny then st.foundCtx else cid }
  | _ => pure st

/-- `xbrl_parser._calculate_inventories_value`: first the total tags; else
sum three component groups (sale goods preferring a combined tag, work in
process, raw materials preferring a combined tag), treating a missing
component as zero; absent when no component at all was found. -/
def calculateInventoriesValue (doc : XDoc) (contexts : List (String × ContextData))
    (ns : List (String × String)) (allowed : List String) (needDuration : Bool) :
    Except PyErr (Option Int × Option String × Option String) := do
  let r ← findFactInContexts doc contexts ns totalInventoryTags allowed needDuration true
  match r with
  | (some v, tag, cid) => pure (some v, tag, cid)
  | _ =>
      let st0 : CompState := { total := 0, foundAny := false, foundCtx := none }
      let r1 ← findFactInContexts doc contexts ns ["MerchandiseAndFinishedGoods"] allowed needDuration true
      let st1 ←
        match r1 with
        | (some v, _, cid) => pure { total := st0.total + v, foundAny := true, foundCtx := cid }
        | _ => do
            let a ← getComponent doc contexts ns allowed needDuration "Merchandise" st0
            getComponent doc contexts ns allowed needDuration "FinishedGoods" a
      let st2 ← getComponent doc contexts ns allowed needDuration "WorkInProcess" st1
      let st3 ← getComponent doc contexts ns allowed needDuration "SemiFinishedGoods" st2
      let r3 ← findFactInContexts doc contexts ns ["RawMaterialsAndSupplies"] allowed needDuration true
      let st4 ←
        match r3 with
        | (some v, _, cid) =>
            pure { total := st3.total + v, foundAny := true,
                   foundCtx := if st3.foundAny then st3.foundCtx else cid }
        | _ => do
            let a ← getComponent doc contexts ns allowed needDuration "RawMaterials" st3
            getComponent doc contexts ns allowed needDuration "Supplies" a
      if st4.foundAny then pure (some st4.total, some "Inventories(Calculated)", st4.foundCtx)
      else pure (none, none, none)

/-! ## Dates and per-scope context selection -/

/-- Loop body of `xbrl_parser.get_latest_dates`: a duration context with
a truthy end date raises the duration maximum, an instant context with a
truthy end date the instant maximum (Python string comparison =
lexicographic by code point). -/
def latestStep (acc : Option String × Option String) (p : String × ContextData) :
    Option String × Option String :=
  if p.2.is_duration && optTruthy p.2.endDate then
    match acc.1 with
    | none => (some (p.2.endDate.getD ""), acc.2)
    | some cur =>
        if strLtB cur (p.2.endDate.getD "") then (some (p.2.endDate.getD ""), acc.2) else acc
  else if !p.2.is_duration && optTruthy p.2.endDate then
    match acc.2 with
    | none => (acc.1, some (p.2.endDate.getD ""))
    | some cur =>
        if strLtB cur (p.2.endDate.getD "") then (acc.1, some (p.2.endDate.getD "")) else acc
  else acc

/-- `xbrl_parser.get_latest_dates`. -/
def getLatestDates (contexts : List (String × ContextData)) :
    Option String × Option String :=
  contexts.foldl latestStep (none, none)

/-- `xbrl_parser.get_target_context_ids`: ids of contexts matching scope,
period kind and exact end date. -/
def getTargetContextIds (contexts : List (String × ContextData)) (scope : String)
    (isDuration : Bool) (date : String) : List String :=
  (contexts.filter (fun p =>
      p.2.scope == scope && p.2.is_duration == isDuration && p.2.endDate == some date)).map
    (fun p => p.1)

/-- Gregorian leap year (as validated by Python `datetime`). -/
def isLeapYear (y : Nat) : Bool :=
  (y % 4 == 0 && y % 100 != 0) || y % 400 == 0

/-- Days in a month of a given year. -/
def daysInMonth (y m : Nat) : Nat :=
  if m == 2 then (if isLeapYear y then 29 else 28)
  else if m == 4 || m == 6 || m == 9 || m == 11 then 30
  else 31

/-- All-digit check used by the `strptime` format directives. -/
def allDigits (s : String) : Bool :=
  !s.isEmpty && s.toList.all Char.isDigit

/-- `datetime.strptime(s, "%Y-%m-%d")`: year exactly four digits, month
and day one or two digits, whole string consumed, then calendar
validation by the `datetime` constructor (year ≥ 1, month 1-12, day within
the month). -/
def parseYmd (s : String) : Option (Nat × Nat × Nat) :=
  match (splitOnChar '-' s.toList).map String.mk with
  | [ys, ms, ds] =>
      if allDigits ys && ys.length == 4 &&
         allDigits ms && ms.length ≤ 2 &&
         allDigits ds && ds.length ≤ 2 then
        let y := digitsVal ys.toList
        let m := digitsVal ms.toList
        let d := digitsVal ds.toList
        if 1 ≤ y && 1 ≤ m && m ≤ 12 && 1 ≤ d && d ≤ daysInMonth y m then
          some (y, m, d)
        else none
      else none
  | _ => none

/-- Zero-pad a numeral to a given width. -/
def padNum (w n : Nat) : String :=
  let s := toString n
  String.mk (List.replicate (w - s.length) '0') ++ s

/-- `date.strftime("%Y-%m-%d")`. -/
def fmtYmd : Nat × Nat × Nat → String
  | (y, m, d) => padNum 4 y ++ "-" ++ padNum 2 m ++ "-" ++ padNum 2 d

/-- `d - timedelta(days=1)`: `none` is the OverflowError below
`date.min = 0001-01-01`. -/
def prevDay? (y m d : Nat) : Option (Nat × Nat × Nat) :=
  if 1 < d then some (y, m, d - 1)
  else if 1 < m then some (y, m - 1, daysInMonth y (m - 1))
  else if 1 < y then some (y - 1, 12, 31)
  else none

/-- Successor day with month/year rollover; used to state that `prevDay?`
really is "exactly one calendar day earlier". -/
def nextDay : Nat × Nat × Nat → Nat × Nat × Nat
  | (y, m, d) =>
      if d < daysInMonth y m then (y, m, d + 1)
      else if m < 12 then (y, m + 1, 1)
      else (y + 1, 1, 1)

/-! ## Comprehensive extraction (`parse_financial_facts`) -/

/-- Items treated as balance-sheet (instant) items (source line 287). -/
def bsItems : List String := ["inventories", "cash", "debt", "net_assets"]

/-- One recorded fact: value, matched tag, and the `ContextData` stored
under the matched context id. -/
structure PeriodFact where
  value : Int
  tag : Option String
  context : Option ContextData
deriving DecidableEq, Repr

/-- The prior-date derivation `str(int(d[:4]) - 1) + d[4:]` (source lines
272-280); `int` failure on the leading four characters is an uncaught
ValueError. -/
def priorDateStr (d : String) : Except PyErr String :=
  match pyInt? (d.take 4) with
  | some y => .ok (toString (y - 1) ++ d.drop 4)
  | none => .error .valueError

/-- The guarded prior-date computation of lines 272-280: `None` stays
`None`, a present latest date is decremented. -/
def priorOf (d? : Option String) : Except PyErr (Option String) :=
  match d? with
  | some d => (priorDateStr d).map some
  | none => pure none

/-- Prior-period admissible ids (source lines 306-314): the exact-date ids,
extended — when the prior date round-trips through
`strptime(.., "%Y-%m-%d")` — by the ids matching the date one day earlier;
a `strptime` failure is caught and ignored, while the OverflowError of
stepping below `date.min` is not caught. -/
def priorAllowedE (contexts : List (String × ContextData)) (scope : String)
    (needDuration : Bool) (date : String) : Except PyErr (List String) :=
  let ids := getTargetContextIds contexts scope needDuration date
  match parseYmd date with
  | none => .ok ids
  | some (y, m, d) =>
      match prevDay? y m d with
      | none => .error .overflowError
      | some p => .ok (ids ++ getTargetContextIds contexts scope needDuration (fmtYmd p))

/-- One period's resolution inside `parse_financial_facts`: nothing when
the admissible id list is empty, else the composite calculator for the
`"inventories"` item and the plain resolver otherwise, recording the
context record found under the matched id. -/
def resolveItemPeriod (doc : XDoc) (contexts : List (String × ContextData))
    (ns : List (String × String)) (item : String) (tags : List String)
    (needDuration : Bool) (allowed : List String) : Except PyErr (Option PeriodFact) := do
  if allowed.isEmpty then pure none
  else do
    let r ←
      if item == "inventories" then
        calculateInventoriesValue doc contexts ns allowed needDuration
      else
        findFactInContexts doc contexts ns tags allowed needDuration true
    match r with
    | (some v, tag, cid) =>
        pure (some { value := v, tag := tag,
                     context := cid.bind (fun c => dictGet contexts c) })
    | _ => pure none

/-- Current and prior resolution for one item in one scope (source lines
285-323): balance-sheet items use the instant dates with instant matching,
the rest the duration dates with duration matching, guarded by the
truthiness of each date. -/
def extractItem (doc : XDoc) (contexts : List (String × ContextData))
    (ns : List (String × String)) (scope item : String) (tags : List String)
    (latestDur latestInst priorDur priorInst : Option String) :
    Except PyErr (Option PeriodFact × Option PeriodFact) := do
  let isBs := bsItems.contains item
  let needDuration := !isBs
  let currentDate := if isBs then latestInst else latestDur
  let cur ←
    if optTruthy currentDate then
      resolveItemPeriod doc contexts ns item tags needDuration
        (getTargetContextIds contexts scope needDuration (currentDate.getD ""))
    else pure none
  let priorDate := if isBs then priorInst else priorDur
  let pri ←
    if optTruthy priorDate then do
      let allowed ← priorAllowedE contexts scope needDuration (priorDate.getD "")
      resolveItemPeriod doc contexts ns item tags needDuration allowed
    else pure none
  pure (cur, pri)

/-- Per-scope item loop: an item is recorded exactly when at least one of
its current/prior resolutions succeeded. -/
def buildItems (doc : XDoc) (contexts : List (String × ContextData))
    (ns : List (String × String)) (scope : String)
    (latestDur latestInst priorDur priorInst : Option String) :
    List (String × List String) →
    Except PyErr (List (String × (Option PeriodFact × Option PeriodFact)))
  | [] => pure []
  | (item, tags) :: rest => do
      let r ← extractItem doc contexts ns scope item tags latestDur latestInst priorDur priorInst
      let others ← buildItems doc contexts ns scope latestDur latestInst priorDur priorInst rest
      if r.1.isSome || r.2.isSome then pure ((item, r) :: others) else pure others

/-- Result of `parse_financial_facts`: per-scope item results (a scope is
present only when nonempty) plus the accounting-standard entry
(`acctStd = none` models the early empty-contexts return `{}` where the
key itself is absent; `some none` models a present element with `None`
text). -/
structure FinFacts where
  scopes : List (String × List (String × (Option PeriodFact × Option PeriodFact)))
  acctStd : Option (Option String)
deriving DecidableEq, Repr

/-- The accounting-standard entry (source lines 331-336): first element
named `AccountingStandardsDEI`, else the `"N/A"` sentinel. -/
def acctStdOf (doc : XDoc) : Option String :=
  match elemsWithLocalName doc "AccountingStandardsDEI" with
  | [] => some "N/A"
  | el :: _ => el.text

/-- The nonempty-contexts branch of `parse_financial_facts`: derive the
two latest dates and their decremented prior dates, then run the item loop
in both scopes. -/
def parseFFBody (doc : XDoc) (contexts : List (String × ContextData))
    (itemTags : List (String × List String)) : Except PyErr FinFacts := do
  let priorDur ← priorOf (getLatestDates contexts).1
  let priorInst ← priorOf (getLatestDates contexts).2
  let cons ← buildItems doc contexts doc.nsmap "consolidated"
      (getLatestDates contexts).1 (getLatestDates contexts).2 priorDur priorInst itemTags
  let noncons ← buildItems doc contexts doc.nsmap "non_consolidated"
      (getLatestDates contexts).1 (getLatestDates contexts).2 priorDur priorInst itemTags
  pure { scopes :=
           (if cons.isEmpty then [] else [("consolidated", cons)]) ++
           (if noncons.isEmpty then [] else [("non_consolidated", noncons)]),
         acctStd := some (acctStdOf doc) }

/-- `xbrl_parser.parse_financial_facts`, parameterized by the
`config.FINANCIAL_ITEM_TAGS` mapping (referenced by the source but absent
from `config.py` in this tree). -/
def parseFinancialFacts (doc : XDoc) (itemTags : List (String × List String)) :
    Except PyErr FinFacts :=
  if (buildContexts doc).isEmpty then pure { scopes := [], acctStd := none }
  else parseFFBody doc (buildContexts doc) itemTags

/-! ## Filing selector (`processor.pick_recent_annual_reports`) -/

/-- One row of the daily document index, after `build_daily_index` has
stringified the status columns. `periodEnd` is kept as the raw string;
`pd.to_datetime(.., errors='coerce')` is modeled as ISO `YYYY-MM-DD`
parsing (unparseable rows become `NaT` and are dropped).
`submitDateTime` is an abstract timestamp. -/
structure IndexRow where
  docID : String
  edinetCode : String
  docTypeCode : String
  xbrlFlag : String
  withdrawalStatus : String
  disclosureStatus : String
  periodEnd : String
  submitDateTime : Nat
deriving DecidableEq, Repr

/-- A filtered row together with its derived `year_key` and `is_corr`
columns. -/
structure SubRow where
  row : IndexRow
  yearKey : String
  isCorr : Bool
deriving DecidableEq, Repr

/-- The eligibility filter of lines 68-74: company match, annual-report
document types 120/130, XBRL available, not withdrawn, normally
disclosed. -/
def rowEligible (code : String) (r : IndexRow) : Bool :=
  r.edinetCode == code && (r.docTypeCode == "120" || r.docTypeCode == "130") &&
  r.xbrlFlag == "1" && r.withdrawalStatus == "0" && r.disclosureStatus == "0"

/-- Date-key derivation of lines 80-83; `none` models the row being
dropped by `dropna(subset=['periodEnd'])`. -/
def toSubRow (r : IndexRow) : Option SubRow :=
  (parseYmd r.periodEnd).map
    (fun d => { row := r, yearKey := fmtYmd d, isCorr := r.docTypeCode == "130" })

/-- `is_corr` as the integer pandas sorts on. -/
def corrNat (b : Bool) : Nat := if b then 1 else 0

/-- The lexicographic ordering of
`sort_values(['year_key','is_corr','submitDateTime'], ascending=[True,False,False])`
as a Boolean comparison (ties compare equal). -/
def subLeB (a b : SubRow) : Bool :=
  strLtB a.yearKey b.yearKey ||
  (a.yearKey == b.yearKey &&
    (corrNat b.isCorr < corrNat a.isCorr ||
      (a.isCorr == b.isCorr && b.row.submitDateTime ≤ a.row.submitDateTime)))

/-- The sort relation induced by `subLeB`. -/
def subLe (a b : SubRow) : Prop := subLeB a b = true

instance : DecidableRel subLe := fun a b => by
  unfold subLe; infer_instance

/-- The ordering of the final `sort_values('submitDateTime', ascending=False)`. -/
def submitDesc (a b : SubRow) : Prop :=
  b.row.submitDateTime ≤ a.row.submitDateTime

instance : DecidableRel submitDesc := fun a b => by
  unfold submitDesc; infer_instance

/-- Worker for `drop_duplicates('year_key', keep='first')`: keep a row
exactly when its `year_key` has not been seen yet. -/
def dedupByKeyAux (seen : List String) : List SubRow → List SubRow
  | [] => []
  | a :: t =>
      if seen.contains a.yearKey then dedupByKeyAux seen t
      else a :: dedupByKeyAux (a.yearKey :: seen) t

/-- `drop_duplicates('year_key', keep='first')`: keep the first row of each
`year_key` in the current order. -/
def dedupByKey (l : List SubRow) : List SubRow := dedupByKeyAux [] l

/-- Lines 68-83: eligibility filter, `dropna` on the period end, and the
derived `year_key` / `is_corr` columns. -/
def eligibleSubRows (rows : List IndexRow) (code : String) : List SubRow :=
  (rows.filter (rowEligible code)).filterMap toSubRow

/-- Lines 86-87: stable lexicographic sort then one winner per
`year_key`. -/
def filingWinners (rows : List IndexRow) (code : String) : List SubRow :=
  dedupByKey (List.insertionSort subLe (eligibleSubRows rows code))

/-- `processor.pick_recent_annual_reports`: filter, derive keys, stable
lexicographic sort, keep one winner per period-end, resort by submission
time descending, return at most two. -/
def pickRecentAnnualReports (rows : List IndexRow) (code : String) : List SubRow :=
  (List.insertionSort submitDesc (filingWinners rows code)).take 2

/-! ## Targeted extraction (`_extract_single_fact`) -/

/-- Modelled from the spec: `_extract_single_fact` is invoked throughout
`processor.extract_financials` but is missing from `xbrl_parser.py` in
this tree. Per §4.6 "targeted mode" the admissible contexts are those
whose scope matches the consolidation requirement, whose period kind
matches, and whose end date equals the caller-supplied period end; the
spec resolver of §4.4 then scans the priority tag list. This per-element
filter follows §4.4 step 2 (context membership, period kind, unit,
namespace) with §7's `ValueParseError` treated as "candidate does not
match". -/
def specCheckElem (doc : XDoc) (contexts : List (String × ContextData))
    (ns : List (String × String)) (tag : String) (allowed : List String)
    (needDuration checkUnit : Bool) (el : XElem) : Option (Int × String) :=
  if !optTruthy el.contextRef then none
  else
    let cid := el.contextRef.getD ""
    if !(allowed.contains cid) then none
    else
      match dictGet contexts cid with
      | none => none
      | some ctx =>
          if ctx.is_duration != needDuration then none
          else if checkUnit && !unitIsJpy doc el.unitRef then none
          else if nsMismatch ns tag el then none
          else
            match parseIntLoose el.text with
            | .ok v => some (v, cid)
            | .error _ => none

/-- Modelled from the spec (§4.4 step 3): first surviving candidate
element of one tag. -/
def specMatchElems (doc : XDoc) (contexts : List (String × ContextData))
    (ns : List (String × String)) (tag : String) (allowed : List String)
    (needDuration checkUnit : Bool) : List XElem → Option (Int × String)
  | [] => none
  | el :: rest =>
      match specCheckElem doc contexts ns tag allowed needDuration checkUnit el with
      | some r => some r
      | none => specMatchElems doc contexts ns tag allowed needDuration checkUnit rest

/-- Modelled from the spec (§4.4 steps 1-4): priority scan over the tag
list; absence is a value, never an error. -/
def specFindLoop (doc : XDoc) (contexts : List (String × ContextData))
    (ns : List (String × String)) (allowed : List String)
    (needDuration checkUnit : Bool) :
    List String → Option Int × Option String × Option String
  | [] => (none, none, none)
  | tag :: rest =>
      match specMatchElems doc contexts ns tag allowed needDuration checkUnit
          (elemsWithLocalName doc (tagLocal tag)) with
      | some (v, cid) => (some v, some tag, some cid)
      | none => specFindLoop doc contexts ns allowed needDuration checkUnit rest

/-- Modelled from the spec: `_extract_single_fact` in targeted mode
(§4.6), with the consolidation requirement selecting the scope and the
supplied period end selecting the admissible context ids. -/
def extractSingleFact (doc : XDoc) (contexts : List (String × ContextData))
    (ns : List (String × String)) (tagList : List String) (needDuration : Bool)
    (periodEnd : Option String) (consolidatedRequired checkUnit : Bool) :
    Option Int × Option String × Option String :=
  match periodEnd with
  | none => (none, none, none)
  | some pe =>
      let scope := if consolidatedRequired then "consolidated" else "non_consolidated"
      let allowed := getTargetContextIds contexts scope needDuration pe
      specFindLoop doc contexts ns allowed needDuration checkUnit tagList

/-- `config.PL_TAGS["revenue"]`. -/
def plRevenueTags : List String :=
  ["Revenue", "NetSales", "SalesRevenue", "OperatingRevenue"]

/-! ## Helper lemmas -/

instance {ε α : Type} [DecidableEq ε] [DecidableEq α] : DecidableEq (Except ε α) :=
  fun a b =>
    match a, b with
    | .ok x, .ok y =>
        if h : x = y then isTrue (by rw [h])
        else isFalse (fun he => h (Except.ok.inj he))
    | .error x, .error y =>
        if h : x = y then isTrue (by rw [h])
        else isFalse (fun he => h (Except.error.inj he))
    | .ok _, .error _ => isFalse (fun he => Except.noConfusion he)
    | .error _, .ok _ => isFalse (fun he => Except.noConfusion he)

/-- The ten ASCII digit characters. -/
def digitChars : List Char := ['0', '1', '2', '3', '4', '5', '6', '7', '8', '9']

/-- The JPY unit declaration used by the example documents. -/
def exJpyUnit : XUnit := { id := "U1", measures := ["iso4217:JPY"] }

/-- A consolidated fiscal-2024 duration context. -/
def exCtxRawCurY : XContext :=
  { id := some "C1",
    period := some { instant := none, startDate := some (some "2023-04-01"),
                     endDate := some (some "2024-03-31") },
    scenario := none }

/-- Document for the C1 witness: both `"Revenue"` and `"NetSales"` carry
valid facts in the admissible context. -/
def c1Doc : XDoc :=
  { contextsRaw := [exCtxRawCurY],
    units := [exJpyUnit],
    elems :=
      [ { localName := "Revenue", nsUri := none, contextRef := some "C1",
          unitRef := some "U1", text := some "300" },
        { localName := "NetSales", nsUri := none, contextRef := some "C1",
          unitRef := some "U1", text := some "1000" } ],
    nsmap := [],
    edinetCodeDEI := some (some "E00001") }

/-- Document for C2's failing input: a perfectly valid `"NetSales"` fact
in an admissible consolidated duration context with a JPY unit, but no
`jpdei_cor:EDINETCodeDEI` element anywhere. -/
def c2DocNoDEI : XDoc :=
  { contextsRaw := [exCtxRawCurY],
    units := [exJpyUnit],
    elems :=
      [ { localName := "NetSales", nsUri := none, contextRef := some "C1",
          unitRef := some "U1", text := some "900" } ],
    nsmap := [],
    edinetCodeDEI := none }

/-- Document for C2's recoverable paths: a candidate with unparseable
text followed by a good candidate, and no facts at all for other tags. -/
def c2DocParse : XDoc :=
  { contextsRaw := [exCtxRawCurY],
    units := [exJpyUnit],
    elems :=
      [ { localName := "NetSales", nsUri := none, contextRef := some "C1",
          unitRef := some "U1", text := some "abc" },
        { localName := "NetSales", nsUri := none, contextRef := some "C1",
          unitRef := some "U1", text := some "700" } ],
    nsmap := [],
    edinetCodeDEI := some (some "E00002") }

/-- Document for C4: its only candidate fact has a non-JPY (USD) unit. -/
def c4Doc : XDoc :=
  { contextsRaw := [exCtxRawCurY],
    units := [{ id := "UUSD", measures := ["iso4217:USD"] }],
    elems :=
      [ { localName := "NetSales", nsUri := none, contextRef := some "C1",
          unitRef := some "UUSD", text := some "800" } ],
    nsmap := [],
    edinetCodeDEI := some (some "E00003") }

/-- A second consolidated duration context for the same period. -/
def exCtxRawCB : XContext :=
  { id := some "CB",
    period := some { instant := none, startDate := some (some "2023-04-01"),
                     endDate := some (some "2024-03-31") },
    scenario := none }

/-- Document for C3: no total-inventory tag, but `Merchandise` = 100 (in
context `CB`, found first) and `FinishedGoods` = 50 (in context `C1`). -/
def c3Doc : XDoc :=
  { contextsRaw := [exCtxRawCurY, exCtxRawCB],
    units := [exJpyUnit],
    elems :=
      [ { localName := "Merchandise", nsUri := none, contextRef := some "CB",
          unitRef := some "U1", text := some "100" },
        { localName := "FinishedGoods", nsUri := none, contextRef := some "C1",
          unitRef := some "U1", text := some "50" } ],
    nsmap := [],
    edinetCodeDEI := some (some "E00004") }

/-- Document for C3: neither a total-inventory tag nor any component. -/
def c3EmptyDoc : XDoc :=
  { contextsRaw := [exCtxRawCurY],
    units := [exJpyUnit],
    elems := [],
    nsmap := [],
    edinetCodeDEI := some (some "E00005") }

/-- Document for the C3 witness: a total tag (`Inventories` = 999) is
present, so the composite calculator returns it directly. -/
def c3TotalDoc : XDoc :=
  { contextsRaw := [exCtxRawCurY],
    units := [exJpyUnit],
    elems :=
      [ { localName := "Inventories", nsUri := none, contextRef := some "C1",
          unitRef := some "U1", text := some "999" },
        { localName := "Merchandise", nsUri := none, contextRef := some "C1",
          unitRef := some "U1", text := some "1" } ],
    nsmap := [],
    edinetCodeDEI := some (some "E00007") }

/-- A scenario member whose `dimension` attribute is truthy and ends with
the consolidation axis name. -/
def isAxisMember (m : XMember) : Bool :=
  match m.dimension with
  | some d => d != "" && strEndsWith d "ConsolidatedOrNonConsolidatedAxis"
  | none => false

/-- A scenario member whose text is truthy and ends with the
non-consolidated marker. -/
def isNonConsText (m : XMember) : Bool :=
  match m.text with
  | some t => t != "" && strEndsWith t "NonConsolidatedMember"
  | none => false

/-- The C5 claim's scope condition read literally ("its scenario contains
an explicit dimensional member whose dimension name ends with the
consolidation axis name and whose member text ends with the
non-consolidated marker"), as a predicate on a raw context. -/
def hasNonConsolidatedMember (c : XContext) : Bool :=
  match c.scenario with
  | none => false
  | some ms => ms.any (fun m => isAxisMember m && isNonConsText m)

/-- Counterexample context: the first axis member is consolidated, a
second axis member is non-consolidated; the source breaks after the first
one. -/
def c5Ctx : XContext :=
  { id := some "CX",
    period := some { instant := none, startDate := some (some "2023-04-01"),
                     endDate := some (some "2024-03-31") },
    scenario := some
      [ { dimension := some "jppfs_cor:ConsolidatedOrNonConsolidatedAxis",
          text := some "jppfs_cor:ConsolidatedMember" },
        { dimension := some "jppfs_cor:ConsolidatedOrNonConsolidatedAxis",
          text := some "jppfs_cor:NonConsolidatedMember" } ] }

/-- Document registering only `c5Ctx`. -/
def c5Doc : XDoc :=
  { contextsRaw := [c5Ctx],
    units := [],
    elems := [],
    nsmap := [],
    edinetCodeDEI := some (some "E00006") }

/-- Witness document for C5: one non-consolidated context `NC` carrying a
`NetSales` fact. -/
def c5wDoc : XDoc :=
  { contextsRaw :=
      [ { id := some "NC",
          period := some { instant := none, startDate := some (some "2023-04-01"),
                           endDate := some (some "2024-03-31") },
          scenario := some
            [ { dimension := some "jppfs_cor:ConsolidatedOrNonConsolidatedAxis",
                text := some "jppfs_cor:NonConsolidatedMember" } ] } ],
    units := [exJpyUnit],
    elems :=
      [ { localName := "NetSales", nsUri := none, contextRef := some "NC",
          unitRef := some "U1", text := some "5" } ],
    nsmap := [],
    edinetCodeDEI := some (some "E00008") }

/-- Original annual report (type 120), submitted later. -/
def c6Row120 : IndexRow :=
  { docID := "D100", edinetCode := "E1", docTypeCode := "120", xbrlFlag := "1",
    withdrawalStatus := "0", disclosureStatus := "0", periodEnd := "2024-03-31",
    submitDateTime := 10 }

/-- Corrected annual report (type 130) for the same period, submitted
earlier. -/
def c6Row130 : IndexRow :=
  { docID := "D200", edinetCode := "E1", docTypeCode := "130", xbrlFlag := "1",
    withdrawalStatus := "0", disclosureStatus := "0", periodEnd := "2024-03-31",
    submitDateTime := 5 }

/-- The derived rows of the two C6 witness filings. -/
def c6Sub120 : SubRow :=
  { row := c6Row120, yearKey := "2024-03-31", isCorr := false }

def c6Sub130 : SubRow :=
  { row := c6Row130, yearKey := "2024-03-31", isCorr := true }

/-- The C8 synthetic document: one consolidated and one non-consolidated
FY2024 duration context, each carrying a `NetSales` fact in JPY. -/
def c8Doc : XDoc :=
  { contextsRaw :=
      [ { id := some "CurY",
          period := some { instant := none, startDate := some (some "2023-04-01"),
                           endDate := some (some "2024-03-31") },
          scenario := none },
        { id := some "CurYN",
          period := some { instant := none, startDate := some (some "2023-04-01"),
                           endDate := some (some "2024-03-31") },
          scenario := some
            [ { dimension := some "jppfs_cor:ConsolidatedOrNonConsolidatedAxis",
                text := some "jppfs_cor:NonConsolidatedMember" } ] } ],
    units := [exJpyUnit],
    elems :=
      [ { localName := "NetSales", nsUri := none, contextRef := some "CurY",
          unitRef := some "U1", text := some "1000000" },
        { localName := "NetSales", nsUri := none, contextRef := some "CurYN",
          unitRef := some "U1", text := some "500000" } ],
    nsmap := [],
    edinetCodeDEI := some (some "E00009") }

/-- The C9/C10 example document: two duration contexts (fiscal 2023 and
2024) and two instant contexts, with `NetSales` facts for both duration
periods. -/
def c9Doc : XDoc :=
  { contextsRaw :=
      [ { id := some "D1",
          period := some { instant := none, startDate := some (some "2022-04-01"),
                           endDate := some (some "2023-03-31") },
          scenario := none },
        { id := some "D2",
          period := some { instant := none, startDate := some (some "2023-04-01"),
                           endDate := some (some "2024-03-31") },
          scenario := none },
        { id := some "I1",
          period := some { instant := some (some "2024-03-31"), startDate := none,
                           endDate := none },
          scenario := none },
        { id := some "I0",
          period := some { instant := some (some "2023-03-31"), startDate := none,
                           endDate := none },
          scenario := none } ],
    units := [exJpyUnit],
    elems :=
      [ { localName := "NetSales", nsUri := none, contextRef := some "D2",
          unitRef := some "U1", text := some "100" },
        { localName := "NetSales", nsUri := none, contextRef := some "D1",
          unitRef := some "U1", text := some "90" } ],
    nsmap := [],
    edinetCodeDEI := some (some "E00010") }

/-- Calendar validity as checked by the Python `datetime` constructor. -/
def validDate (y m d : Nat) : Prop :=
  1 ≤ y ∧ 1 ≤ m ∧ m ≤ 12 ∧ 1 ≤ d ∧ d ≤ daysInMonth y m

instance (y m d : Nat) : Decidable (validDate y m d) := by
  unfold validDate; infer_instance

/-- A context dated one day before the derived prior date (March 30 for a
prior date of March 31 is not such a case — here December 31 precedes
January 1 across a year boundary). -/
def c10Ctx : ContextData :=
  { id := "P", startDate := some "2023-04-01", endDate := some "2023-12-31",
    is_duration := true, scope := "consolidated" }

theorem dropWhile_all_false (p : Char → Bool) :
    ∀ l : List Char, (∀ c ∈ l, p c = false) → l.dropWhile p = l
  | [], _ => rfl
  | c :: t, h => by
      have hc := h c (List.mem_cons_self c t)
      simp [List.dropWhile_cons, hc]

theorem stripPyWs_eq_self (l : List Char) (h : ∀ c ∈ l, isPyWs c = false) :
    stripPyWs l = l := by
  unfold stripPyWs
  rw [dropWhile_all_false _ _ h]
  rw [dropWhile_all_false _ _ (fun c hc => h c (List.mem_reverse.mp hc))]
  exact List.reverse_reverse l

theorem digit_char_props {c : Char} (h : c ∈ digitChars) :
    isPyWs c = false ∧ c.isDigit = true ∧ c ≠ '(' ∧ c ≠ '+' ∧ c ≠ '-' ∧ c ≠ '_' := by
  fin_cases h <;> exact ⟨rfl, rfl, by decide, by decide, by decide, by decide⟩

theorem digitsRest_of_digits : ∀ l : List Char, (∀ c ∈ l, c ∈ digitChars) →
    digitsRest l = true
  | [], _ => rfl
  | c :: t, h => by
      obtain ⟨-, hd, -, -, -, hu⟩ := digit_char_props (h c (List.mem_cons_self c t))
      have ht := digitsRest_of_digits t (fun x hx => h x (List.mem_cons_of_mem c hx))
      unfold digitsRest
      rw [if_neg hu, hd, ht]
      rfl

theorem filter_digits_eq_self (l : List Char) (h : ∀ c ∈ l, c ∈ digitChars) :
    l.filter Char.isDigit = l :=
  List.filter_eq_self.mpr (fun c hc => (digit_char_props (h c hc)).2.1)

/-- On a nonempty all-digit character list, `pyInt?` returns the
positional value. -/
theorem pyInt?_digits (l : List Char) (hne : l ≠ [])
    (h : ∀ c ∈ l, c ∈ digitChars) :
    pyInt? (String.mk l) = some (digitsVal l) := by
  match l, hne with
  | c :: t, _ =>
    obtain ⟨-, hd, -, hplus, hminus, -⟩ := digit_char_props (h c (List.mem_cons_self c t))
    have hstrip : stripPyWs (String.mk (c :: t)).toList = c :: t :=
      stripPyWs_eq_self _ (fun x hx => (digit_char_props (h x hx)).1)
    have hvalid : validDigitStr (c :: t) = true := by
      have ht := digitsRest_of_digits t (fun x hx => h x (List.mem_cons_of_mem c hx))
      simp [validDigitStr, hd, ht]
    have hfilt : (c :: t).filter Char.isDigit = c :: t := filter_digits_eq_self _ h
    unfold pyInt?
    rw [hstrip]
    simp [hplus, hminus, hvalid, hfilt]

theorem removeCommas_digits (l : List Char) (h : ∀ c ∈ l, c ∈ digitChars ∨ c = ',') :
    ∀ c ∈ removeCommas l, c ∈ digitChars := by
  intro c hc
  obtain ⟨hmem, hne⟩ := List.mem_filter.mp hc
  rcases h c hmem with hd | he
  · exact hd
  · subst he; simp at hne

theorem parenRewrite_of_head_ne : ∀ l : List Char, (∀ c ∈ l, c ≠ '(') →
    parenRewrite l = l
  | [], _ => rfl
  | c :: t, h => by
      have hc := h c (List.mem_cons_self c t)
      have he : parenRewrite (c :: t) =
          if c = '(' ∧ t.getLast? = some ')' then '-' :: t.dropLast else c :: t := rfl
      rw [he, if_neg (fun hand => hc hand.1)]

theorem validDigitStr_of_digits (l : List Char) (hne : l ≠ [])
    (h : ∀ c ∈ l, c ∈ digitChars) : validDigitStr l = true := by
  match l, hne with
  | c :: t, _ =>
    have hd := (digit_char_props (h c (List.mem_cons_self c t))).2.1
    have ht := digitsRest_of_digits t (fun x hx => h x (List.mem_cons_of_mem c hx))
    simp [validDigitStr, hd, ht]

/-- On `"-"` followed by a nonempty all-digit list, `pyInt?` returns the
negated positional value. -/
theorem pyInt?_neg (l : List Char) (hne : l ≠ []) (h : ∀ c ∈ l, c ∈ digitChars) :
    pyInt? (String.mk ('-' :: l)) = some (-(digitsVal l : Int)) := by
  have hstrip : stripPyWs (String.mk ('-' :: l)).toList = '-' :: l := by
    apply stripPyWs_eq_self
    intro c hc
    rcases List.mem_cons.mp hc with he | hm
    · subst he; rfl
    · exact (digit_char_props (h c hm)).1
  have hv := validDigitStr_of_digits l hne h
  have hfilt := filter_digits_eq_self l h
  unfold pyInt?
  rw [hstrip]
  simp [hv, hfilt]

/-- `_parse_int_loose` on any mixture of digits and comma separators with
at least one digit: the commas are deleted and the remaining digit string
is parsed positionally. -/
theorem parseIntLoose_digits_commas (l : List Char)
    (h : ∀ c ∈ l, c ∈ digitChars ∨ c = ',') (hne : removeCommas l ≠ []) :
    parseIntLoose (some (String.mk l)) = .ok (digitsVal (removeCommas l)) := by
  have hnws : ∀ c ∈ l, isPyWs c = false := by
    intro c hc
    rcases h c hc with hd | he
    · exact (digit_char_props hd).1
    · subst he; rfl
  have hdigits := removeCommas_digits l h
  have hpr : parenRewrite (removeCommas l) = removeCommas l :=
    parenRewrite_of_head_ne _ (fun c hc => (digit_char_props (hdigits c hc)).2.2.1)
  have h0 : parseIntLoose (some (String.mk l)) =
      parseIntCore (String.mk (parenRewrite (removeCommas (stripPyWs l)))) := rfl
  rw [h0, stripPyWs_eq_self l hnws, hpr]
  unfold parseIntCore
  rw [pyInt?_digits _ hne hdigits]
  rfl

/-- `_parse_int_loose` on a fully parenthesized nonempty digit string:
the accounting-style negation. -/
theorem parseIntLoose_paren (l : List Char) (hne : l ≠ [])
    (h : ∀ c ∈ l, c ∈ digitChars) :
    parseIntLoose (some (String.mk ('(' :: (l ++ [')'])))) = .ok (-(digitsVal l : Int)) := by
  have hnws : ∀ c ∈ ('(' :: (l ++ [')'])), isPyWs c = false := by
    intro c hc
    rcases List.mem_cons.mp hc with he | hm
    · subst he; rfl
    · rcases List.mem_append.mp hm with hl | hr
      · exact (digit_char_props (h c hl)).1
      · rcases List.mem_singleton.mp hr with he2
        subst he2; rfl
  have hnc : removeCommas ('(' :: (l ++ [')'])) = '(' :: (l ++ [')']) := by
    apply List.filter_eq_self.mpr
    intro c hc
    rcases List.mem_cons.mp hc with he | hm
    · subst he; rfl
    · rcases List.mem_append.mp hm with hl | hr
      · have hd := h c hl
        fin_cases hd <;> rfl
      · rcases List.mem_singleton.mp hr with he2
        subst he2; rfl
  have hpr : parenRewrite ('(' :: (l ++ [')'])) = '-' :: l := by
    have he : parenRewrite ('(' :: (l ++ [')'])) =
        if ('(' : Char) = '(' ∧ (l ++ [')']).getLast? = some ')' then
          '-' :: (l ++ [')']).dropLast
        else '(' :: (l ++ [')']) := rfl
    rw [he, if_pos ⟨rfl, List.getLast?_concat l⟩, List.dropLast_concat]
  have h0 : parseIntLoose (some (String.mk ('(' :: (l ++ [')'])))) =
      parseIntCore (String.mk (parenRewrite (removeCommas (stripPyWs ('(' :: (l ++ [')'])))))) := rfl
  rw [h0, stripPyWs_eq_self _ hnws, hnc, hpr]
  unfold parseIntCore
  rw [pyInt?_neg l hne h]

/-! ## Claim theorems -/

/-- C7: the numeric parser strips surrounding whitespace, removes comma
thousands separators, rewrites a fully parenthesized string `"(N)"` to
`"-N"`, then attempts integer parse and, on failure, float parse truncated
to an integer; it raises an error when the input is absent or neither
parse succeeds. In particular `"1,234,567"` parses to `1234567` and
`"(500)"` parses to `-500`. -/
theorem C7_numeric_parse :
    (∀ l : List Char, (∀ c ∈ l, c ∈ digitChars ∨ c = ',') → removeCommas l ≠ [] →
        parseIntLoose (some (String.mk l)) = .ok (digitsVal (removeCommas l)))
    ∧ (∀ l : List Char, l ≠ [] → (∀ c ∈ l, c ∈ digitChars) →
        parseIntLoose (some (String.mk ('(' :: (l ++ [')'])))) =
          .ok (-(digitsVal l : Int)))
    ∧ parseIntLoose (some "1,234,567") = .ok 1234567
    ∧ parseIntLoose (some "(500)") = .ok (-500)
    ∧ parseIntLoose (some "  1,234,567  ") = .ok 1234567
    ∧ parseIntLoose (some " 12.5 ") = .ok 12
    ∧ parseIntLoose none = .error .valueError
    ∧ parseIntLoose (some "abc") = .error .valueError :=
  ⟨parseIntLoose_digits_commas, parseIntLoose_paren,
   by decide, by decide, by decide, by decide, by decide, by decide⟩

/-- Witness for C7: the quantified conjuncts applied at the concrete
inputs `"89"` and `"(7)"`. -/
theorem C7_numeric_parse_witness :
    parseIntLoose (some "89") = .ok 89 ∧ parseIntLoose (some "(7)") = .ok (-7) := by
  constructor
  · exact C7_numeric_parse.1 ['8', '9'] (by decide) (by decide)
  · exact C7_numeric_parse.2.1 ['7'] (by decide) (by decide)

/-- Key lemma for C1: `findLoop` returns the result of the first tag in
the list whose search survives, regardless of what later tags hold. -/
theorem findLoop_first_match (doc : XDoc) (contexts : List (String × ContextData))
    (ns : List (String × String)) (allowed : List String)
    (needDuration checkUnit : Bool) :
    ∀ (pre : List String) (t : String) (post : List String) (v : Int) (cid : String),
    (∀ t2 ∈ pre, searchTag doc contexts ns allowed needDuration checkUnit t2 = .ok none) →
    searchTag doc contexts ns allowed needDuration checkUnit t = .ok (some (v, cid)) →
    findLoop doc contexts ns allowed needDuration checkUnit (pre ++ t :: post) =
      .ok (some v, some t, some cid)
  | [], t, post, v, cid, _, ht => by simp [findLoop, ht]
  | a :: rest, t, post, v, cid, hpre, ht => by
      have ha := hpre a (List.mem_cons_self a rest)
      have ih := findLoop_first_match doc contexts ns allowed needDuration checkUnit
        rest t post v cid (fun t2 h2 => hpre t2 (List.mem_cons_of_mem a h2)) ht
      simp [findLoop, ha, ih]

/-- C1: for every tag list split as `pre ++ t :: post` where no tag of
`pre` has a surviving candidate and tag `t` does, the resolver returns
`t`'s fact — the tags of `post` are never consulted (the result does not
depend on `post`). Stated under the C2 caveat that the document's
`EDINETCodeDEI` lookup succeeds (otherwise the debug instrumentation
raises before any tag is read). -/
theorem C1_tag_priority (doc : XDoc) (contexts : List (String × ContextData))
    (ns : List (String × String)) (allowed : List String)
    (needDuration checkUnit : Bool) (pre post : List String) (t : String)
    (v : Int) (cid : String)
    (hdei : ∃ s, doc.edinetCodeDEI = some (some s))
    (hpre : ∀ t2 ∈ pre, searchTag doc contexts ns allowed needDuration checkUnit t2 = .ok none)
    (ht : searchTag doc contexts ns allowed needDuration checkUnit t = .ok (some (v, cid))) :
    findFactInContexts doc contexts ns (pre ++ t :: post) allowed needDuration checkUnit =
      .ok (some v, some t, some cid) := by
  obtain ⟨s, hs⟩ := hdei
  unfold findFactInContexts
  rw [hs]
  exact findLoop_first_match doc contexts ns allowed needDuration checkUnit
    pre t post v cid hpre ht

/-- Witness for C1: with both `"Revenue"` and `"NetSales"` valid and
`"Revenue"` listed first, the `"Revenue"` fact (300) is returned, never
the `"NetSales"` one. -/
theorem C1_tag_priority_witness :
    findFactInContexts c1Doc (buildContexts c1Doc) [] ["Revenue", "NetSales"] ["C1"]
      true true = .ok (some 300, some "Revenue", some "C1") :=
  C1_tag_priority c1Doc (buildContexts c1Doc) [] ["C1"] true true [] ["NetSales"]
    "Revenue" 300 "C1" ⟨"E00001", rfl⟩
    (fun t2 h2 => absurd h2 (List.not_mem_nil t2)) (by decide)

/-- C2 (code bug): the claim says the resolver never raises, but the
debug instrumentation at `xbrl_parser.py:99` dereferences the
`EDINETCodeDEI` lookup unconditionally, so a document without that element
raises even though it holds a perfectly valid matching fact. The claim's
positive content does hold on documents where that lookup succeeds: a
candidate whose text fails to parse is skipped in favor of the next
candidate, and exhaustion yields the absent triple rather than an error. -/
theorem C2_resolver_error_handling :
    findFactInContexts c2DocNoDEI (buildContexts c2DocNoDEI) [] ["NetSales"] ["C1"]
      true true = .error .debugCrash
    ∧ findFactInContexts c2DocParse (buildContexts c2DocParse) [] ["NetSales"] ["C1"]
        true true = .ok (some 700, some "NetSales", some "C1")
    ∧ findFactInContexts c2DocParse (buildContexts c2DocParse) []
        ["Revenue", "OperatingRevenue"] ["C1"] true true = .ok (none, none, none) :=
  ⟨by decide, by decide, by decide⟩

/-- C4: unit classification — an absent or unresolvable unit reference is
not local currency (fail closed); an identifier lower-casing to `"jpy"` is
local currency; otherwise the declaration is resolved by id and the unit
is local currency iff some measure, lower-cased, equals `"jpy"` or ends
with `":jpy"`. Consequently the sole USD-denominated candidate of `c4Doc`
is never returned with `checkUnit = true` and is returned with
`checkUnit = false`. -/
theorem C4_currency_filter :
    (∀ doc : XDoc, unitIsJpy doc none = false ∧ unitIsJpy doc (some "") = false)
    ∧ (∀ (doc : XDoc) (u : String), u ≠ "" → lowerStr u = "jpy" →
        unitIsJpy doc (some u) = true)
    ∧ (∀ (doc : XDoc) (u : String), u ≠ "" → lowerStr u ≠ "jpy" →
        doc.units.find? (fun ud => ud.id == u) = none →
        unitIsJpy doc (some u) = false)
    ∧ (∀ (doc : XDoc) (u : String) (ud : XUnit), u ≠ "" → lowerStr u ≠ "jpy" →
        doc.units.find? (fun ud2 => ud2.id == u) = some ud →
        unitIsJpy doc (some u) =
          ud.measures.any (fun m => strEndsWith (lowerStr m) ":jpy" || lowerStr m == "jpy"))
    ∧ findFactInContexts c4Doc (buildContexts c4Doc) [] ["NetSales"] ["C1"]
        true true = .ok (none, none, none)
    ∧ findFactInContexts c4Doc (buildContexts c4Doc) [] ["NetSales"] ["C1"]
        true false = .ok (some 800, some "NetSales", some "C1") := by
  refine ⟨fun doc => ⟨rfl, rfl⟩, ?_, ?_, ?_, by decide, by decide⟩
  · intro doc u hne hl
    simp [unitIsJpy, hne, hl]
  · intro doc u hne hl hfind
    simp [unitIsJpy, hne, hl, hfind]
  · intro doc u ud hne hl hfind
    simp [unitIsJpy, hne, hl, hfind]

/-- Witness for C4: the quantified conjuncts applied at concrete units. -/
theorem C4_currency_filter_witness :
    unitIsJpy c4Doc (some "JPY") = true
    ∧ unitIsJpy c4Doc (some "Unknown") = false
    ∧ unitIsJpy c4Doc (some "UUSD") =
        (["iso4217:USD"] : List String).any
          (fun m => strEndsWith (lowerStr m) ":jpy" || lowerStr m == "jpy") := by
  refine ⟨?_, ?_, ?_⟩
  · exact C4_currency_filter.2.1 c4Doc "JPY" (by decide) (by decide)
  · exact C4_currency_filter.2.2.1 c4Doc "Unknown" (by decide) (by decide) (by decide)
  · exact C4_currency_filter.2.2.2.1 c4Doc "UUSD"
      { id := "UUSD", measures := ["iso4217:USD"] } (by decide) (by decide) (by decide)

/-- C3: the composite inventory calculator returns a total-tag fact
directly whenever the total-tag resolution finds one (no summing); with no
total tag it sums the found components (`Merchandise` = 100,
`FinishedGoods` = 50 gives 150) under the synthetic tag
`"Inventories(Calculated)"` with the context id of the first component
found (`CB`); and with no total and no component at all the result is the
absent triple, not zero. -/
theorem C3_composite_inventories :
    (∀ (doc : XDoc) (contexts : List (String × ContextData))
        (ns : List (String × String)) (allowed : List String) (dur : Bool)
        (v : Int) (tag cid : Option String),
      findFactInContexts doc contexts ns totalInventoryTags allowed dur true =
        .ok (some v, tag, cid) →
      calculateInventoriesValue doc contexts ns allowed dur = .ok (some v, tag, cid))
    ∧ calculateInventoriesValue c3Doc (buildContexts c3Doc) [] ["C1", "CB"] true =
        .ok (some 150, some "Inventories(Calculated)", some "CB")
    ∧ calculateInventoriesValue c3EmptyDoc (buildContexts c3EmptyDoc) [] ["C1"] true =
        .ok (none, none, none) := by
  refine ⟨?_, by decide, by decide⟩
  intro doc contexts ns allowed dur v tag cid h
  unfold calculateInventoriesValue
  rw [h]
  rfl

/-- Witness for C3: the direct-return conjunct applied at `c3TotalDoc`,
whose total tag `jppfs_cor:Inventories` resolves to 999. -/
theorem C3_composite_inventories_witness :
    calculateInventoriesValue c3TotalDoc (buildContexts c3TotalDoc) [] ["C1"] true =
      .ok (some 999, some "jppfs_cor:Inventories", some "C1") :=
  C3_composite_inventories.1 c3TotalDoc (buildContexts c3TotalDoc) [] ["C1"] true
    999 (some "jppfs_cor:Inventories") (some "C1") (by decide)

theorem scopeFromMembers_cons (m : XMember) (rest : List XMember) :
    scopeFromMembers (m :: rest) =
      if isAxisMember m then
        (if isNonConsText m then "non_consolidated" else "consolidated")
      else scopeFromMembers rest := by
  cases hd : m.dimension with
  | none => simp [scopeFromMembers, isAxisMember, hd]
  | some d =>
      cases ht : m.text with
      | none => simp [scopeFromMembers, isAxisMember, isNonConsText, hd, ht]
      | some t => simp [scopeFromMembers, isAxisMember, isNonConsText, hd, ht]

theorem scopeFromMembers_cases : ∀ ms : List XMember,
    scopeFromMembers ms = "consolidated" ∨ scopeFromMembers ms = "non_consolidated"
  | [] => Or.inl rfl
  | m :: rest => by
      rw [scopeFromMembers_cons]
      by_cases h1 : isAxisMember m = true
      · by_cases h2 : isNonConsText m = true
        · simp [h1, h2]
        · simp [h1, h2]
      · simp only [Bool.not_eq_true] at h1
        simp only [h1, Bool.false_eq_true, if_false]
        exact scopeFromMembers_cases rest

/-- The amended C5 scope rule: the registered scope is non-consolidated
exactly when the first scenario member carrying the consolidation axis
dimension has non-consolidated member text (members before it carry no
axis dimension). -/
theorem scopeFromMembers_iff : ∀ ms : List XMember,
    scopeFromMembers ms = "non_consolidated" ↔
      ∃ pre m post, ms = pre ++ m :: post ∧ (∀ m2 ∈ pre, isAxisMember m2 = false) ∧
        isAxisMember m = true ∧ isNonConsText m = true
  | [] => by
      constructor
      · intro h; exact absurd h (by decide)
      · rintro ⟨pre, m, post, he, -, -, -⟩
        exact absurd he (by simp)
  | mm :: rest => by
      rw [scopeFromMembers_cons]
      by_cases h1 : isAxisMember mm = true
      · by_cases h2 : isNonConsText mm = true
        · simp only [h1, h2, if_true]
          constructor
          · intro _
            exact ⟨[], mm, rest, rfl, fun m2 hm2 => absurd hm2 (List.not_mem_nil m2), h1, h2⟩
          · intro _; trivial
        · simp only [h1, if_true]
          rw [if_neg h2]
          constructor
          · intro h; exact absurd h (by decide)
          · rintro ⟨pre, m, post, he, hpre, hm1, hm2⟩
            cases pre with
            | nil =>
                rw [List.nil_append] at he
                have hmm : mm = m := (List.cons.injEq .. |>.mp he).1
                exact absurd (hmm ▸ hm2) h2
            | cons p ps =>
                have hmm : mm = p := (List.cons.injEq .. |>.mp he).1
                have := hpre p (List.mem_cons_self p ps)
                rw [← hmm, h1] at this
                exact Bool.true_eq_false.mp this |>.elim
      · simp only [Bool.not_eq_true] at h1
        simp only [h1, Bool.false_eq_true, if_false]
        rw [scopeFromMembers_iff rest]
        constructor
        · rintro ⟨pre, m, post, he, hpre, hm1, hm2⟩
          refine ⟨mm :: pre, m, post, by rw [List.cons_append, he], ?_, hm1, hm2⟩
          intro m2 hm2'
          rcases List.mem_cons.mp hm2' with h | h
          · rw [h]; exact h1
          · exact hpre m2 h
        · rintro ⟨pre, m, post, he, hpre, hm1, hm2⟩
          cases pre with
          | nil =>
              rw [List.nil_append] at he
              have hmm : mm = m := (List.cons.injEq .. |>.mp he).1
              rw [← hmm, h1] at hm1
              exact Bool.false_eq_true.mp hm1 |>.elim
          | cons p ps =>
              obtain ⟨-, htail⟩ := List.cons.injEq .. |>.mp he
              exact ⟨ps, m, post, htail, fun m2 h => hpre m2 (List.mem_cons_of_mem p h),
                hm1, hm2⟩

theorem buildOneContext_props (c : XContext) (cid : String) (cd : ContextData)
    (h : buildOneContext c = some (cid, cd)) :
    c.id = some cid ∧ cd.id = cid ∧ cd.scope = scopeOfContext c := by
  unfold buildOneContext at h
  split at h
  · exact absurd h (by simp)
  next i hid =>
    split at h
    · exact absurd h (by simp)
    next hi =>
      split at h
      · exact absurd h (by simp)
      next p hp =>
        split at h
        next itext hin =>
          obtain ⟨h1, h2⟩ := Prod.mk.injEq .. |>.mp (Option.some.injEq .. |>.mp h)
          subst h1
          exact ⟨hid, by rw [← h2], by rw [← h2]⟩
        next hin =>
          obtain ⟨h1, h2⟩ := Prod.mk.injEq .. |>.mp (Option.some.injEq .. |>.mp h)
          subst h1
          exact ⟨hid, by rw [← h2], by rw [← h2]⟩

theorem mem_dictInsert (m : List (String × ContextData)) (k : String)
    (v : ContextData) (p : String × ContextData) (hp : p ∈ dictInsert m k v) :
    p = (k, v) ∨ p ∈ m := by
  unfold dictInsert at hp
  split at hp
  · obtain ⟨q, hq, he⟩ := List.mem_map.mp hp
    by_cases hk : q.1 == k
    · rw [if_pos hk] at he; left; exact he.symm
    · rw [if_neg hk] at he; right; exact he ▸ hq
  · rcases List.mem_append.mp hp with h | h
    · right; exact h
    · left; exact List.mem_singleton.mp h

/-- The context-registration fold only produces pairs that either were in
the accumulator or arise from some raw context. -/
theorem foldl_ctx_mem : ∀ (rcs : List XContext) (m0 : List (String × ContextData))
    (p : String × ContextData),
    p ∈ rcs.foldl
      (fun m c =>
        match buildOneContext c with
        | none => m
        | some (cid, cd) => dictInsert m cid cd) m0 →
    p ∈ m0 ∨ ∃ c ∈ rcs, buildOneContext c = some p
  | [], _, _, hp => Or.inl hp
  | c :: rest, m0, p, hp => by
      rw [List.foldl_cons] at hp
      rcases foldl_ctx_mem rest _ p hp with hm | ⟨c2, hc2, he⟩
      · cases hb : buildOneContext c with
        | none => rw [hb] at hm; exact Or.inl hm
        | some q =>
            obtain ⟨cid, cd⟩ := q
            rw [hb] at hm
            rcases mem_dictInsert m0 cid cd p hm with he | hmem
            · exact Or.inr ⟨c, List.mem_cons_self c rest, by rw [hb, he]⟩
            · exact Or.inl hmem
      · exact Or.inr ⟨c2, List.mem_cons_of_mem c hc2, he⟩

theorem buildContexts_mem (doc : XDoc) (p : String × ContextData)
    (hp : p ∈ buildContexts doc) :
    ∃ c ∈ doc.contextsRaw, buildOneContext c = some p := by
  rcases foldl_ctx_mem doc.contextsRaw [] p hp with hm | h
  · exact absurd hm (List.not_mem_nil p)
  · exact h

theorem mem_getTargetContextIds (contexts : List (String × ContextData))
    (scope : String) (dur : Bool) (date : String) (cid : String)
    (h : cid ∈ getTargetContextIds contexts scope dur date) :
    ∃ cd, (cid, cd) ∈ contexts ∧ cd.scope = scope ∧ cd.is_duration = dur ∧
      cd.endDate = some date := by
  unfold getTargetContextIds at h
  obtain ⟨p, hp, he⟩ := List.mem_map.mp h
  obtain ⟨hmem, hq⟩ := List.mem_filter.mp hp
  subst he
  simp only [Bool.and_eq_true, beq_iff_eq] at hq
  exact ⟨p.2, by simpa using hmem, hq.1.1, hq.1.2, hq.2⟩

theorem checkElem_allowed (doc : XDoc) (contexts : List (String × ContextData))
    (ns : List (String × String)) (tag : String) (allowed : List String)
    (needDuration checkUnit : Bool) (el : XElem) (v : Int) (cid : String)
    (h : checkElem doc contexts ns tag allowed needDuration checkUnit el =
      .ok (some (v, cid))) :
    allowed.contains cid = true := by
  unfold checkElem at h
  split at h
  · exact absurd h (by simp)
  split at h
  next hcont => exact absurd h (by simp)
  next hcont =>
    split at h
    · exact absurd h (by simp)
    split at h
    · exact absurd h (by simp)
    split at h
    · exact absurd h (by simp)
    split at h
    · exact absurd h (by simp)
    split at h
    next v2 hv2 =>
      obtain ⟨-, h2⟩ := Prod.mk.injEq .. |>.mp
        (Option.some.injEq .. |>.mp (Except.ok.inj h))
      rw [← h2]
      simpa using hcont
    next hv2 => exact absurd h (by simp)
    next e he2 => exact absurd h (by simp)

theorem matchElems_allowed (doc : XDoc) (contexts : List (String × ContextData))
    (ns : List (String × String)) (tag : String) (allowed : List String)
    (needDuration checkUnit : Bool) (v : Int) (cid : String) :
    ∀ els : List XElem,
    matchElems doc contexts ns tag allowed needDuration checkUnit els =
      .ok (some (v, cid)) →
    allowed.contains cid = true
  | [], h => by simp [matchElems] at h
  | el :: rest, h => by
      unfold matchElems at h
      cases hc : checkElem doc contexts ns tag allowed needDuration checkUnit el with
      | ok o =>
          cases o with
          | none =>
              rw [hc] at h
              exact matchElems_allowed doc contexts ns tag allowed needDuration checkUnit
                v cid rest h
          | some q =>
              rw [hc] at h
              have he : (Except.ok (some q) : Except PyErr (Option (Int × String))) =
                  .ok (some (v, cid)) := h
              have hq : q = (v, cid) := Option.some.injEq .. |>.mp (Except.ok.inj he)
              exact checkElem_allowed doc contexts ns tag allowed needDuration checkUnit
                el v cid (by rw [hc, hq])
      | error e => rw [hc] at h; exact absurd h (by simp)

theorem findLoop_allowed (doc : XDoc) (contexts : List (String × ContextData))
    (ns : List (String × String)) (allowed : List String)
    (needDuration checkUnit : Bool) (o1 : Option Int) (o2 : Option String)
    (cid : String) :
    ∀ tagList : List String,
    findLoop doc contexts ns allowed needDuration checkUnit tagList =
      .ok (o1, o2, some cid) →
    allowed.contains cid = true
  | [], h => by simp [findLoop] at h
  | tag :: rest, h => by
      unfold findLoop at h
      cases hs : searchTag doc contexts ns allowed needDuration checkUnit tag with
      | error e => rw [hs] at h; exact absurd h (by simp)
      | ok o =>
          cases o with
          | none =>
              rw [hs] at h
              exact findLoop_allowed doc contexts ns allowed needDuration checkUnit
                o1 o2 cid rest h
          | some q =>
              obtain ⟨v2, cid2⟩ := q
              rw [hs] at h
              have he := Except.ok.inj h
              have hcid : cid2 = cid := by
                have := (Prod.mk.injEq .. |>.mp he).2
                have := (Prod.mk.injEq .. |>.mp this).2
                exact Option.some.injEq .. |>.mp this
              exact matchElems_allowed doc contexts ns tag allowed needDuration checkUnit
                v2 cid _ (by rw [← hcid]; exact hs)

theorem findFactInContexts_allowed (doc : XDoc)
    (contexts : List (String × ContextData)) (ns : List (String × String))
    (tagList allowed : List String) (needDuration checkUnit : Bool)
    (o1 : Option Int) (o2 : Option String) (cid : String)
    (h : findFactInContexts doc contexts ns tagList allowed needDuration checkUnit =
      .ok (o1, o2, some cid)) :
    allowed.contains cid = true := by
  unfold findFactInContexts at h
  split at h
  · exact findLoop_allowed doc contexts ns allowed needDuration checkUnit o1 o2 cid
      tagList h
  · exact absurd h (by simp)

/-- C5 counterexample: context `CX`'s scenario does contain an explicit
member with the axis dimension and non-consolidated member text, yet
`_build_contexts` registers it with scope `"consolidated"`: the loop
breaks at the first axis-dimension member (a consolidated one) and never
reads the second. -/
theorem C5_scope_counterexample :
    hasNonConsolidatedMember c5Ctx = true
    ∧ (dictGet (buildContexts c5Doc) "CX").map ContextData.scope =
        some "consolidated" :=
  ⟨by decide, by decide⟩

/-- C5 (amended): a registered context's scope is NON_CONSOLIDATED exactly
when the FIRST scenario member whose dimension is truthy and ends with the
consolidation axis name has truthy member text ending with the
non-consolidated marker (members before it carry no axis dimension);
every other registered context is CONSOLIDATED. Every registered context
record arises from a raw context declaration and carries that context's
scope; the admissible context ids computed for a scope refer only to
registered contexts of that scope, and the resolver only ever returns a
context id from its admissible list — so a NON_CONSOLIDATED fact is never
returned for a consolidated-scope extraction. -/
theorem C5_scope_amended :
    (∀ ms : List XMember, scopeFromMembers ms = "non_consolidated" ↔
      ∃ pre m post, ms = pre ++ m :: post ∧ (∀ m2 ∈ pre, isAxisMember m2 = false) ∧
        isAxisMember m = true ∧ isNonConsText m = true)
    ∧ (∀ ms : List XMember,
        scopeFromMembers ms = "consolidated" ∨ scopeFromMembers ms = "non_consolidated")
    ∧ (∀ (c : XContext) (cid : String) (cd : ContextData),
        buildOneContext c = some (cid, cd) →
        c.id = some cid ∧ cd.id = cid ∧ cd.scope = scopeOfContext c)
    ∧ (∀ (doc : XDoc) (p : String × ContextData), p ∈ buildContexts doc →
        ∃ c ∈ doc.contextsRaw, buildOneContext c = some p)
    ∧ (∀ (contexts : List (String × ContextData)) (scope : String) (dur : Bool)
        (date : String) (cid : String),
        cid ∈ getTargetContextIds contexts scope dur date →
        ∃ cd, (cid, cd) ∈ contexts ∧ cd.scope = scope ∧ cd.is_duration = dur ∧
          cd.endDate = some date)
    ∧ (∀ (doc : XDoc) (contexts : List (String × ContextData))
        (ns : List (String × String)) (tagList allowed : List String) (dur cu : Bool)
        (o1 : Option Int) (o2 : Option String) (cid : String),
        findFactInContexts doc contexts ns tagList allowed dur cu =
          .ok (o1, o2, some cid) →
        allowed.contains cid = true) :=
  ⟨scopeFromMembers_iff, scopeFromMembers_cases, buildOneContext_props,
   buildContexts_mem, mem_getTargetContextIds, findFactInContexts_allowed⟩

/-- Witness for C5 (amended): the scope rule applied at a concrete
single-member scenario and the allowed-ids guarantee applied at a concrete
resolver run on `c5wDoc`. -/
theorem C5_scope_amended_witness :
    scopeFromMembers
      [ { dimension := some "xConsolidatedOrNonConsolidatedAxis",
          text := some "yNonConsolidatedMember" } ] = "non_consolidated"
    ∧ (["NC"] : List String).contains "NC" = true := by
  constructor
  · exact (C5_scope_amended.1 _).mpr
      ⟨[], { dimension := some "xConsolidatedOrNonConsolidatedAxis",
             text := some "yNonConsolidatedMember" }, [], rfl,
        fun m2 h => absurd h (List.not_mem_nil m2), by decide, by decide⟩
  · exact C5_scope_amended.2.2.2.2.2 c5wDoc (buildContexts c5wDoc) [] ["NetSales"]
      ["NC"] true true (some 5) (some "NetSales") "NC" (by decide)

/-! Lemmas about `get_latest_dates` as a running maximum. -/

theorem charListLt_iff : ∀ l1 l2 : List Char, charListLt l1 l2 = true ↔ l1 < l2
  | l1, [] => by
      constructor
      · intro h
        cases l1 <;> simp [charListLt] at h
      · intro h
        cases h
  | [], b :: bs => by
      constructor
      · intro _; exact List.Lex.nil
      · intro _; rfl
  | a :: as, b :: bs => by
      by_cases hab : a < b
      · simp only [charListLt, if_pos hab]
        constructor
        · intro _; exact List.Lex.rel hab
        · intro _; trivial
      · by_cases hba : b < a
        · simp only [charListLt, if_neg hab, if_pos hba]
          constructor
          · intro h; exact absurd h (by simp)
          · intro h
            cases h with
            | cons h3 => exact absurd hba (lt_irrefl a)
            | rel h2 => exact absurd h2 hab
        · have hab2 : a = b := le_antisymm (le_of_not_lt hba) (le_of_not_lt hab)
          subst hab2
          simp only [charListLt, if_neg hab]
          rw [charListLt_iff as bs]
          constructor
          · intro h; exact List.Lex.cons h
          · intro h
            cases h with
            | cons h3 => exact h3
            | rel h2 => exact absurd h2 hab

theorem strLtB_iff (s t : String) : strLtB s t = true ↔ s < t := by
  rw [String.lt_iff_toList_lt]
  exact charListLt_iff s.toList t.toList

theorem latestStep_fst_mono (a1 a2 : Option String) (p : String × ContextData)
    (m0 : String) (h : a1 = some m0) :
    ∃ m1, (latestStep (a1, a2) p).1 = some m1 ∧ m0 ≤ m1 := by
  subst h
  simp only [latestStep]
  split
  · split
    next hlt => exact ⟨_, rfl, le_of_lt ((strLtB_iff _ _).mp hlt)⟩
    next hge => exact ⟨m0, rfl, le_refl m0⟩
  · split
    · split
      · exact ⟨m0, rfl, le_refl m0⟩
      · refine ⟨m0, ?_, le_refl m0⟩
        split <;> rfl
    · exact ⟨m0, rfl, le_refl m0⟩

theorem latestStep_fst_new (a1 a2 : Option String) (p : String × ContextData)
    (e : String) (hdur : p.2.is_duration = true) (hend : p.2.endDate = some e)
    (hne : e ≠ "") :
    ∃ m1, (latestStep (a1, a2) p).1 = some m1 ∧ e ≤ m1 := by
  have hcond : (p.2.is_duration && optTruthy p.2.endDate) = true := by
    simp [hdur, hend, optTruthy, hne]
  have hgd : p.2.endDate.getD "" = e := by rw [hend]; rfl
  simp only [latestStep]
  rw [if_pos hcond, hgd]
  cases a1 with
  | none => exact ⟨e, rfl, le_refl e⟩
  | some cur =>
      by_cases hlt : strLtB cur e = true
      · exact ⟨e, by simp [hlt], le_refl e⟩
      · exact ⟨cur, by simp [hlt],
          le_of_not_lt (fun h2 => hlt ((strLtB_iff _ _).mpr h2))⟩

theorem latestStep_fst_attained (a1 a2 : Option String) (p : String × ContextData)
    (m : String) (h : (latestStep (a1, a2) p).1 = some m) :
    a1 = some m ∨ (p.2.is_duration = true ∧ p.2.endDate = some m ∧ m ≠ "") := by
  simp only [latestStep] at h
  split at h
  next hcond =>
    obtain ⟨hdur, htru⟩ := Bool.and_eq_true .. |>.mp hcond
    have hend : p.2.endDate = some (p.2.endDate.getD "") := by
      cases he : p.2.endDate with
      | none => rw [he] at htru; exact absurd htru (by simp [optTruthy])
      | some e => rfl
    have hne : p.2.endDate.getD "" ≠ "" := by
      intro hcontra
      rw [hend, hcontra] at htru
      exact absurd htru (by simp [optTruthy])
    split at h
    next heq =>
      have hm := Option.some.injEq .. |>.mp h
      exact Or.inr ⟨hdur, by rw [hend, hm], by rw [← hm]; exact hne⟩
    next cur heq =>
      split at h
      · have hm := Option.some.injEq .. |>.mp h
        exact Or.inr ⟨hdur, by rw [hend, hm], by rw [← hm]; exact hne⟩
      · exact Or.inl h
  next =>
    split at h
    · split at h
      · exact Or.inl h
      · split at h
        · exact Or.inl h
        · exact Or.inl h
    · exact Or.inl h

theorem latestStep_snd_mono (a1 a2 : Option String) (p : String × ContextData)
    (m0 : String) (h : a2 = some m0) :
    ∃ m1, (latestStep (a1, a2) p).2 = some m1 ∧ m0 ≤ m1 := by
  subst h
  simp only [latestStep]
  split
  · split
    · exact ⟨m0, rfl, le_refl m0⟩
    · refine ⟨m0, ?_, le_refl m0⟩
      split <;> rfl
  · split
    · split
      next hlt => exact ⟨_, rfl, le_of_lt ((strLtB_iff _ _).mp hlt)⟩
      next hge => exact ⟨m0, rfl, le_refl m0⟩
    · exact ⟨m0, rfl, le_refl m0⟩

theorem latestStep_snd_new (a1 a2 : Option String) (p : String × ContextData)
    (e : String) (hdur : p.2.is_duration = false) (hend : p.2.endDate = some e)
    (hne : e ≠ "") :
    ∃ m1, (latestStep (a1, a2) p).2 = some m1 ∧ e ≤ m1 := by
  have hcond1 : ¬ ((p.2.is_duration && optTruthy p.2.endDate) = true) := by
    simp [hdur]
  have hcond2 : (!p.2.is_duration && optTruthy p.2.endDate) = true := by
    simp [hdur, hend, optTruthy, hne]
  have hgd : p.2.endDate.getD "" = e := by rw [hend]; rfl
  simp only [latestStep]
  rw [if_neg hcond1, if_pos hcond2, hgd]
  cases a2 with
  | none => exact ⟨e, rfl, le_refl e⟩
  | some cur =>
      by_cases hlt : strLtB cur e = true
      · exact ⟨e, by simp [hlt], le_refl e⟩
      · exact ⟨cur, by simp [hlt],
          le_of_not_lt (fun h2 => hlt ((strLtB_iff _ _).mpr h2))⟩

theorem latestStep_snd_attained (a1 a2 : Option String) (p : String × ContextData)
    (m : String) (h : (latestStep (a1, a2) p).2 = some m) :
    a2 = some m ∨ (p.2.is_duration = false ∧ p.2.endDate = some m ∧ m ≠ "") := by
  simp only [latestStep] at h
  split at h
  next hcond =>
    split at h
    · exact Or.inl h
    · split at h
      · exact Or.inl h
      · exact Or.inl h
  next =>
    split at h
    next hcond =>
      obtain ⟨hdur, htru⟩ := Bool.and_eq_true .. |>.mp hcond
      have hdur2 : p.2.is_duration = false := by
        cases hd : p.2.is_duration
        · rfl
        · rw [hd] at hdur; exact absurd hdur (by simp)
      have hend : p.2.endDate = some (p.2.endDate.getD "") := by
        cases he : p.2.endDate with
        | none => rw [he] at htru; exact absurd htru (by simp [optTruthy])
        | some e => rfl
      have hne : p.2.endDate.getD "" ≠ "" := by
        intro hcontra
        rw [hend, hcontra] at htru
        exact absurd htru (by simp [optTruthy])
      split at h
      next heq =>
        have hm := Option.some.injEq .. |>.mp h
        exact Or.inr ⟨hdur2, by rw [hend, hm], by rw [← hm]; exact hne⟩
      next cur heq =>
        split at h
        · have hm := Option.some.injEq .. |>.mp h
          exact Or.inr ⟨hdur2, by rw [hend, hm], by rw [← hm]; exact hne⟩
        · exact Or.inl h
    · exact Or.inl h

theorem foldl_latest_fst_mono : ∀ (l : List (String × ContextData))
    (acc : Option String × Option String) (m0 : String),
    acc.1 = some m0 → ∃ m, (l.foldl latestStep acc).1 = some m ∧ m0 ≤ m
  | [], _, m0, h => ⟨m0, h, le_refl m0⟩
  | p :: t, acc, m0, h => by
      obtain ⟨m1, h1, hle1⟩ := latestStep_fst_mono acc.1 acc.2 p m0 h
      obtain ⟨m, h2, hle2⟩ := foldl_latest_fst_mono t (latestStep acc p) m1 h1
      exact ⟨m, by rw [List.foldl_cons]; exact h2, le_trans hle1 hle2⟩

theorem foldl_latest_snd_mono : ∀ (l : List (String × ContextData))
    (acc : Option String × Option String) (m0 : String),
    acc.2 = some m0 → ∃ m, (l.foldl latestStep acc).2 = some m ∧ m0 ≤ m
  | [], _, m0, h => ⟨m0, h, le_refl m0⟩
  | p :: t, acc, m0, h => by
      obtain ⟨m1, h1, hle1⟩ := latestStep_snd_mono acc.1 acc.2 p m0 h
      obtain ⟨m, h2, hle2⟩ := foldl_latest_snd_mono t (latestStep acc p) m1 h1
      exact ⟨m, by rw [List.foldl_cons]; exact h2, le_trans hle1 hle2⟩

/-- Upper bound: the latest duration date dominates every truthy duration
end date in the context map. -/
theorem getLatestDates_fst_ub (l1 l2 : List (String × ContextData)) (cid : String)
    (cd : ContextData) (e : String) (hdur : cd.is_duration = true)
    (hend : cd.endDate = some e) (hne : e ≠ "") :
    ∃ m, (getLatestDates (l1 ++ (cid, cd) :: l2)).1 = some m ∧ e ≤ m := by
  rw [getLatestDates, List.foldl_append, List.foldl_cons]
  obtain ⟨m1, h1, hle1⟩ := latestStep_fst_new (l1.foldl latestStep (none, none)).1
    (l1.foldl latestStep (none, none)).2 (cid, cd) e hdur hend hne
  obtain ⟨m, h2, hle2⟩ := foldl_latest_fst_mono l2
    (latestStep (l1.foldl latestStep (none, none)) (cid, cd)) m1 h1
  exact ⟨m, h2, le_trans hle1 hle2⟩

/-- Upper bound for the instant side. -/
theorem getLatestDates_snd_ub (l1 l2 : List (String × ContextData)) (cid : String)
    (cd : ContextData) (e : String) (hdur : cd.is_duration = false)
    (hend : cd.endDate = some e) (hne : e ≠ "") :
    ∃ m, (getLatestDates (l1 ++ (cid, cd) :: l2)).2 = some m ∧ e ≤ m := by
  rw [getLatestDates, List.foldl_append, List.foldl_cons]
  obtain ⟨m1, h1, hle1⟩ := latestStep_snd_new (l1.foldl latestStep (none, none)).1
    (l1.foldl latestStep (none, none)).2 (cid, cd) e hdur hend hne
  obtain ⟨m, h2, hle2⟩ := foldl_latest_snd_mono l2
    (latestStep (l1.foldl latestStep (none, none)) (cid, cd)) m1 h1
  exact ⟨m, h2, le_trans hle1 hle2⟩

theorem foldl_latest_fst_attained : ∀ (l : List (String × ContextData))
    (acc : Option String × Option String) (m : String),
    (l.foldl latestStep acc).1 = some m →
    acc.1 = some m ∨ ∃ p ∈ l, p.2.is_duration = true ∧ p.2.endDate = some m ∧ m ≠ ""
  | [], _, _, h => Or.inl h
  | p :: t, acc, m, h => by
      rw [List.foldl_cons] at h
      rcases foldl_latest_fst_attained t (latestStep acc p) m h with h1 | ⟨q, hq, hprops⟩
      · rcases latestStep_fst_attained acc.1 acc.2 p m h1 with h2 | h2
        · exact Or.inl h2
        · exact Or.inr ⟨p, List.mem_cons_self p t, h2⟩
      · exact Or.inr ⟨q, List.mem_cons_of_mem p hq, hprops⟩

theorem foldl_latest_snd_attained : ∀ (l : List (String × ContextData))
    (acc : Option String × Option String) (m : String),
    (l.foldl latestStep acc).2 = some m →
    acc.2 = some m ∨ ∃ p ∈ l, p.2.is_duration = false ∧ p.2.endDate = some m ∧ m ≠ ""
  | [], _, _, h => Or.inl h
  | p :: t, acc, m, h => by
      rw [List.foldl_cons] at h
      rcases foldl_latest_snd_attained t (latestStep acc p) m h with h1 | ⟨q, hq, hprops⟩
      · rcases latestStep_snd_attained acc.1 acc.2 p m h1 with h2 | h2
        · exact Or.inl h2
        · exact Or.inr ⟨p, List.mem_cons_self p t, h2⟩
      · exact Or.inr ⟨q, List.mem_cons_of_mem p hq, hprops⟩

/-- Attainment: a returned latest duration date is the truthy duration end
date of some context in the map. -/
theorem getLatestDates_fst_attained (contexts : List (String × ContextData))
    (m : String) (h : (getLatestDates contexts).1 = some m) :
    ∃ p ∈ contexts, p.2.is_duration = true ∧ p.2.endDate = some m ∧ m ≠ "" := by
  rcases foldl_latest_fst_attained contexts (none, none) m h with h1 | h2
  · exact absurd h1 (by simp)
  · exact h2

/-- Attainment for the instant side. -/
theorem getLatestDates_snd_attained (contexts : List (String × ContextData))
    (m : String) (h : (getLatestDates contexts).2 = some m) :
    ∃ p ∈ contexts, p.2.is_duration = false ∧ p.2.endDate = some m ∧ m ≠ "" := by
  rcases foldl_latest_snd_attained contexts (none, none) m h with h1 | h2
  · exact absurd h1 (by simp)
  · exact h2

theorem except_bind_ok {ε α β : Type} (x : Except ε α) (f : α → Except ε β) (b : β)
    (h : (x >>= f) = .ok b) : ∃ a, x = .ok a ∧ f a = .ok b := by
  cases x with
  | ok a => exact ⟨a, rfl, h⟩
  | error e =>
      exact absurd h (by simp [Bind.bind, Except.bind])

theorem buildItems_sound (doc : XDoc) (contexts : List (String × ContextData))
    (ns : List (String × String)) (scope : String) (ld li pd pi : Option String) :
    ∀ (itemTags : List (String × List String))
      (items : List (String × (Option PeriodFact × Option PeriodFact))),
    buildItems doc contexts ns scope ld li pd pi itemTags = .ok items →
    ∀ item rr, (item, rr) ∈ items →
    ∃ tags, (item, tags) ∈ itemTags ∧
      extractItem doc contexts ns scope item tags ld li pd pi = .ok rr ∧
      (rr.1.isSome || rr.2.isSome) = true
  | [], items, h, item, rr, hmem => by
      have he : items = [] := (Except.ok.inj h).symm
      subst he
      exact absurd hmem (List.not_mem_nil _)
  | (i2, t2) :: rest, items, h, item, rr, hmem => by
      unfold buildItems at h
      obtain ⟨r2, he, h2⟩ := except_bind_ok _ _ _ h
      obtain ⟨others, hrest, h3⟩ := except_bind_ok _ _ _ h2
      by_cases hc : (r2.1.isSome || r2.2.isSome) = true
      · rw [if_pos hc] at h3
        have hi : (i2, r2) :: others = items := Except.ok.inj h3
        rw [← hi] at hmem
        rcases List.mem_cons.mp hmem with hh | ht
        · obtain ⟨he1, he2⟩ := Prod.mk.injEq .. |>.mp hh
          refine ⟨t2, ?_, ?_, ?_⟩
          · rw [he1]; exact List.mem_cons_self _ _
          · rw [he1, he2]; exact he
          · rw [he2]; exact hc
        · obtain ⟨tags, hmem2, hext, hcond⟩ :=
            buildItems_sound doc contexts ns scope ld li pd pi rest others hrest item rr ht
          exact ⟨tags, List.mem_cons_of_mem _ hmem2, hext, hcond⟩
      · rw [if_neg hc] at h3
        have hi : others = items := Except.ok.inj h3
        rw [← hi] at hmem
        obtain ⟨tags, hmem2, hext, hcond⟩ :=
          buildItems_sound doc contexts ns scope ld li pd pi rest others hrest item rr hmem
        exact ⟨tags, List.mem_cons_of_mem _ hmem2, hext, hcond⟩

theorem buildItems_complete (doc : XDoc) (contexts : List (String × ContextData))
    (ns : List (String × String)) (scope : String) (ld li pd pi : Option String) :
    ∀ (itemTags : List (String × List String))
      (items : List (String × (Option PeriodFact × Option PeriodFact))),
    buildItems doc contexts ns scope ld li pd pi itemTags = .ok items →
    ∀ item tags rr, (item, tags) ∈ itemTags →
      extractItem doc contexts ns scope item tags ld li pd pi = .ok rr →
      (rr.1.isSome || rr.2.isSome) = true →
      (item, rr) ∈ items
  | [], _, _, item, tags, rr, hmem, _, _ => absurd hmem (List.not_mem_nil _)
  | (i2, t2) :: rest, items, h, item, tags, rr, hmem, hext, hcond => by
      unfold buildItems at h
      obtain ⟨r2, he, h2⟩ := except_bind_ok _ _ _ h
      obtain ⟨others, hrest, h3⟩ := except_bind_ok _ _ _ h2
      rcases List.mem_cons.mp hmem with hh | ht
      · obtain ⟨he1, he2⟩ := Prod.mk.injEq .. |>.mp hh
        have hr : r2 = rr := by
          rw [he1, he2] at hext
          exact Except.ok.inj (he.symm.trans hext)
        rw [hr, if_pos hcond] at h3
        have hi : (i2, rr) :: others = items := Except.ok.inj h3
        rw [← hi, he1]
        exact List.mem_cons_self _ _
      · by_cases hc2 : (r2.1.isSome || r2.2.isSome) = true
        · rw [if_pos hc2] at h3
          have hi : (i2, r2) :: others = items := Except.ok.inj h3
          rw [← hi]
          exact List.mem_cons_of_mem _
            (buildItems_complete doc contexts ns scope ld li pd pi rest others hrest
              item tags rr ht hext hcond)
        · rw [if_neg hc2] at h3
          have hi : others = items := Except.ok.inj h3
          rw [← hi]
          exact buildItems_complete doc contexts ns scope ld li pd pi rest others hrest
            item tags rr ht hext hcond

theorem parseFinancialFacts_scopes (doc : XDoc) (itemTags : List (String × List String))
    (r : FinFacts) (h : parseFinancialFacts doc itemTags = .ok r)
    (s : String) (items : List (String × (Option PeriodFact × Option PeriodFact)))
    (hmem : (s, items) ∈ r.scopes) :
    ∃ pd pi,
      priorOf (getLatestDates (buildContexts doc)).1 = .ok pd ∧
      priorOf (getLatestDates (buildContexts doc)).2 = .ok pi ∧
      (s = "consolidated" ∨ s = "non_consolidated") ∧
      buildItems doc (buildContexts doc) doc.nsmap s
        (getLatestDates (buildContexts doc)).1 (getLatestDates (buildContexts doc)).2
        pd pi itemTags = .ok items := by
  unfold parseFinancialFacts at h
  split at h
  · have hr : ({ scopes := [], acctStd := none } : FinFacts) = r := Except.ok.inj h
    rw [← hr] at hmem
    exact absurd hmem (List.not_mem_nil _)
  · unfold parseFFBody at h
    obtain ⟨pd, hpd, h2⟩ := except_bind_ok _ _ _ h
    obtain ⟨pi, hpi, h3⟩ := except_bind_ok _ _ _ h2
    obtain ⟨cons, hcons, h4⟩ := except_bind_ok _ _ _ h3
    obtain ⟨noncons, hnoncons, h5⟩ := except_bind_ok _ _ _ h4
    have hr : ({ scopes := (if cons.isEmpty then [] else [("consolidated", cons)]) ++
                   (if noncons.isEmpty then [] else [("non_consolidated", noncons)]),
                 acctStd := some (acctStdOf doc) } : FinFacts) = r := Except.ok.inj h5
    rw [← hr] at hmem
    rcases List.mem_append.mp hmem with hm | hm
    · by_cases hce : cons.isEmpty = true
      · rw [if_pos hce] at hm; exact absurd hm (List.not_mem_nil _)
      · rw [if_neg hce] at hm
        obtain ⟨hs, hi⟩ := Prod.mk.injEq .. |>.mp (List.mem_singleton.mp hm)
        exact ⟨pd, pi, hpd, hpi, Or.inl hs, by rw [hs, hi]; exact hcons⟩
    · by_cases hce : noncons.isEmpty = true
      · rw [if_pos hce] at hm; exact absurd hm (List.not_mem_nil _)
      · rw [if_neg hce] at hm
        obtain ⟨hs, hi⟩ := Prod.mk.injEq .. |>.mp (List.mem_singleton.mp hm)
        exact ⟨pd, pi, hpd, hpi, Or.inr hs, by rw [hs, hi]; exact hnoncons⟩

/-! Lemmas for the filing selector. -/

theorem subLe_iff (a b : SubRow) : subLe a b ↔
    a.yearKey < b.yearKey ∨
      (a.yearKey = b.yearKey ∧
        (corrNat b.isCorr < corrNat a.isCorr ∨
          (a.isCorr = b.isCorr ∧ b.row.submitDateTime ≤ a.row.submitDateTime))) := by
  unfold subLe subLeB
  simp [strLtB_iff]

instance : IsTotal SubRow subLe :=
  ⟨fun a b => by
    rw [subLe_iff, subLe_iff]
    rcases lt_trichotomy a.yearKey b.yearKey with h | h | h
    · exact Or.inl (Or.inl h)
    · rcases Nat.lt_trichotomy (corrNat a.isCorr) (corrNat b.isCorr) with h2 | h2 | h2
      · exact Or.inr (Or.inr ⟨h.symm, Or.inl h2⟩)
      · have hcorr : a.isCorr = b.isCorr := by
          cases ha : a.isCorr <;> cases hb : b.isCorr <;>
            simp [corrNat, ha, hb] at h2 ⊢
        rcases Nat.le_total b.row.submitDateTime a.row.submitDateTime with h3 | h3
        · exact Or.inl (Or.inr ⟨h, Or.inr ⟨hcorr, h3⟩⟩)
        · exact Or.inr (Or.inr ⟨h.symm, Or.inr ⟨hcorr.symm, h3⟩⟩)
      · exact Or.inl (Or.inr ⟨h, Or.inl h2⟩)
    · exact Or.inr (Or.inl h)⟩

instance : IsTrans SubRow subLe :=
  ⟨fun a b c hab hbc => by
    rw [subLe_iff] at hab hbc ⊢
    rcases hab with h1 | ⟨h1e, h1i⟩
    · rcases hbc with h2 | ⟨h2e, h2i⟩
      · exact Or.inl (lt_trans h1 h2)
      · exact Or.inl (h2e ▸ h1)
    · rcases hbc with h2 | ⟨h2e, h2i⟩
      · exact Or.inl (h1e ▸ h2)
      · refine Or.inr ⟨h1e.trans h2e, ?_⟩
        rcases h1i with h1c | ⟨h1ce, h1s⟩
        · rcases h2i with h2c | ⟨h2ce, h2s⟩
          · exact Or.inl (lt_trans h2c h1c)
          · exact Or.inl (by rw [← h2ce]; exact h1c)
        · rcases h2i with h2c | ⟨h2ce, h2s⟩
          · exact Or.inl (by rw [h1ce]; exact h2c)
          · exact Or.inr ⟨h1ce.trans h2ce, le_trans h2s h1s⟩⟩

instance : IsTotal SubRow submitDesc :=
  ⟨fun a b => (Nat.le_total b.row.submitDateTime a.row.submitDateTime).imp id id⟩

instance : IsTrans SubRow submitDesc :=
  ⟨fun _ _ _ hab hbc => le_trans hbc hab⟩

theorem dedupByKeyAux_subset : ∀ (seen : List String) (l : List SubRow),
    ∀ w ∈ dedupByKeyAux seen l, w ∈ l
  | _, [], w, hw => by simp [dedupByKeyAux] at hw
  | seen, a :: t, w, hw => by
      unfold dedupByKeyAux at hw
      split at hw
      · exact List.mem_cons_of_mem a (dedupByKeyAux_subset seen t w hw)
      · rcases List.mem_cons.mp hw with h | h
        · rw [h]; exact List.mem_cons_self a t
        · exact List.mem_cons_of_mem a (dedupByKeyAux_subset _ t w h)

theorem dedupByKeyAux_notSeen : ∀ (seen : List String) (l : List SubRow),
    ∀ w ∈ dedupByKeyAux seen l, seen.contains w.yearKey = false
  | _, [], w, hw => by simp [dedupByKeyAux] at hw
  | seen, a :: t, w, hw => by
      unfold dedupByKeyAux at hw
      split at hw
      next hc => exact dedupByKeyAux_notSeen seen t w hw
      next hc =>
        rcases List.mem_cons.mp hw with h | h
        · rw [h]
          cases hcc : seen.contains a.yearKey
          · rfl
          · exact absurd hcc hc
        · have hna := dedupByKeyAux_notSeen _ t w h
          simp only [List.contains_cons, Bool.or_eq_false_iff] at hna
          exact hna.2

theorem dedupByKeyAux_keys_ne : ∀ (seen : List String) (l : List SubRow),
    (dedupByKeyAux seen l).Pairwise (fun x y => x.yearKey ≠ y.yearKey)
  | _, [] => by simp [dedupByKeyAux]
  | seen, a :: t => by
      unfold dedupByKeyAux
      split
      · exact dedupByKeyAux_keys_ne seen t
      · refine List.Pairwise.cons ?_ (dedupByKeyAux_keys_ne _ t)
        intro w hw
        have hna := dedupByKeyAux_notSeen _ t w hw
        simp only [List.contains_cons, Bool.or_eq_false_iff] at hna
        intro he
        have : (w.yearKey == a.yearKey) = true := beq_iff_eq .. |>.mpr he.symm
        rw [hna.1] at this
        exact Bool.false_ne_true this

theorem dedupByKeyAux_covers : ∀ (seen : List String) (l : List SubRow) (r : SubRow),
    r ∈ l → seen.contains r.yearKey = false →
    ∃ w ∈ dedupByKeyAux seen l, w.yearKey = r.yearKey
  | _, [], r, hr, _ => absurd hr (List.not_mem_nil r)
  | seen, a :: t, r, hr, hns => by
      unfold dedupByKeyAux
      rcases List.mem_cons.mp hr with h | h
      · split
        next hc =>
          rw [h] at hns
          rw [hns] at hc
          exact absurd hc Bool.false_ne_true
        next hc => exact ⟨a, List.mem_cons_self _ _, by rw [h]⟩
      · split
        next hc => exact dedupByKeyAux_covers seen t r h hns
        next hc =>
          by_cases hk : r.yearKey = a.yearKey
          · exact ⟨a, List.mem_cons_self _ _, hk.symm⟩
          · obtain ⟨w, hw, hwk⟩ := dedupByKeyAux_covers (a.yearKey :: seen) t r h
              (by simp [List.contains_cons, hk]; simpa using hns)
            exact ⟨w, List.mem_cons_of_mem a hw, hwk⟩

theorem dedupByKeyAux_dominates : ∀ (seen : List String) (l : List SubRow),
    l.Pairwise subLe →
    ∀ w ∈ dedupByKeyAux seen l, ∀ r ∈ l, r.yearKey = w.yearKey → w = r ∨ subLe w r
  | _, [], _, w, hw, _, _, _ => by simp [dedupByKeyAux] at hw
  | seen, a :: t, hp, w, hw, r, hr, hk => by
      obtain ⟨hhead, htail⟩ := List.pairwise_cons.mp hp
      unfold dedupByKeyAux at hw
      split at hw
      next hc =>
        rcases List.mem_cons.mp hr with hra | hrt
        · have hns := dedupByKeyAux_notSeen seen t w hw
          rw [← hk, hra] at hns
          rw [hns] at hc
          exact absurd hc Bool.false_ne_true
        · exact dedupByKeyAux_dominates seen t htail w hw r hrt hk
      next hc =>
        rcases List.mem_cons.mp hw with hwa | hwd
        · subst hwa
          rcases List.mem_cons.mp hr with hra | hrt
          · exact Or.inl hra.symm
          · exact Or.inr (hhead r hrt)
        · rcases List.mem_cons.mp hr with hra | hrt
          · have hns := dedupByKeyAux_notSeen _ t w hwd
            simp only [List.contains_cons, Bool.or_eq_false_iff] at hns
            have hwa : w.yearKey = a.yearKey := by rw [← hk, hra]
            have : (w.yearKey == a.yearKey) = true := beq_iff_eq .. |>.mpr hwa
            rw [hns.1] at this
            exact absurd this Bool.false_ne_true
          · exact dedupByKeyAux_dominates _ t htail w hwd r hrt hk

theorem dedupByKey_subset (l : List SubRow) (w : SubRow) (hw : w ∈ dedupByKey l) :
    w ∈ l :=
  dedupByKeyAux_subset [] l w hw

theorem dedupByKey_keys_ne (l : List SubRow) :
    (dedupByKey l).Pairwise (fun x y => x.yearKey ≠ y.yearKey) :=
  dedupByKeyAux_keys_ne [] l

theorem dedupByKey_covers (l : List SubRow) (r : SubRow) (hr : r ∈ l) :
    ∃ w ∈ dedupByKey l, w.yearKey = r.yearKey :=
  dedupByKeyAux_covers [] l r hr rfl

theorem dedupByKey_dominates (l : List SubRow) (hp : l.Pairwise subLe)
    (w : SubRow) (hw : w ∈ dedupByKey l) (r : SubRow) (hr : r ∈ l)
    (hk : r.yearKey = w.yearKey) : w = r ∨ subLe w r :=
  dedupByKeyAux_dominates [] l hp w hw r hr hk

/-- C6: the filing selector returns at most two rows; every returned row
passed the eligibility filter (company match, document type 120/130, XBRL
available, not withdrawn, normally disclosed) and parsed its period end;
the returned rows are ordered by submission timestamp descending; each
returned row dominates every eligible row sharing its period-end key —
strictly more corrected, or equally corrected and submitted no earlier;
and the winner list has exactly one row per period-end key occurring among
the eligible rows. -/
theorem C6_filing_selector (rows : List IndexRow) (code : String) :
    (pickRecentAnnualReports rows code).length ≤ 2
    ∧ (∀ w ∈ pickRecentAnnualReports rows code,
        ∃ r0 ∈ rows, rowEligible code r0 = true ∧ toSubRow r0 = some w)
    ∧ (pickRecentAnnualReports rows code).Pairwise
        (fun x y => y.row.submitDateTime ≤ x.row.submitDateTime)
    ∧ (∀ w ∈ pickRecentAnnualReports rows code,
        ∀ r ∈ eligibleSubRows rows code, r.yearKey = w.yearKey →
        w = r ∨ corrNat r.isCorr < corrNat w.isCorr ∨
          (w.isCorr = r.isCorr ∧ r.row.submitDateTime ≤ w.row.submitDateTime))
    ∧ (filingWinners rows code).Pairwise (fun x y => x.yearKey ≠ y.yearKey)
    ∧ (∀ r ∈ eligibleSubRows rows code,
        ∃ w ∈ filingWinners rows code, w.yearKey = r.yearKey) := by
  have hperm1 := List.perm_insertionSort subLe (eligibleSubRows rows code)
  have hsorted1 : (List.insertionSort subLe (eligibleSubRows rows code)).Pairwise subLe :=
    List.sorted_insertionSort subLe (eligibleSubRows rows code)
  have hsorted2 :=
    List.sorted_insertionSort submitDesc (filingWinners rows code)
  have hperm2 := List.perm_insertionSort submitDesc (filingWinners rows code)
  have htake : ∀ w ∈ pickRecentAnnualReports rows code, w ∈ filingWinners rows code := by
    intro w hw
    exact hperm2.mem_iff.mp (List.take_subset 2 _ hw)
  have hwin : ∀ w ∈ filingWinners rows code, w ∈ eligibleSubRows rows code := by
    intro w hw
    exact hperm1.mem_iff.mp (dedupByKey_subset _ w hw)
  refine ⟨List.length_take_le 2 _, ?_, ?_, ?_, dedupByKey_keys_ne _, ?_⟩
  · intro w hw
    obtain ⟨r0, hr0, he⟩ := List.mem_filterMap.mp (hwin w (htake w hw))
    obtain ⟨hr0rows, helig⟩ := List.mem_filter.mp hr0
    exact ⟨r0, hr0rows, helig, he⟩
  · exact List.Pairwise.sublist (List.take_sublist 2 _) hsorted2
  · intro w hw r hr hk
    have hrsorted : r ∈ List.insertionSort subLe (eligibleSubRows rows code) :=
      hperm1.mem_iff.mpr hr
    rcases dedupByKey_dominates _ hsorted1 w (htake w hw) r hrsorted hk with he | hle
    · exact Or.inl he
    · rcases (subLe_iff w r).mp hle with hlt | ⟨-, hinner⟩
      · rw [hk] at hlt
        exact absurd hlt (lt_irrefl _)
      · exact Or.inr hinner
  · intro r hr
    exact dedupByKey_covers _ r (hperm1.mem_iff.mpr hr)

/-- Witness for C6: on a same-period pair (original submitted later,
corrected submitted earlier) the corrected filing is the selected winner
and dominates the original by correction status. -/
theorem C6_filing_selector_witness :
    c6Sub130 = c6Sub120 ∨ corrNat c6Sub120.isCorr < corrNat c6Sub130.isCorr ∨
      (c6Sub130.isCorr = c6Sub120.isCorr ∧
        c6Sub120.row.submitDateTime ≤ c6Sub130.row.submitDateTime) :=
  (C6_filing_selector [c6Row120, c6Row130] "E1").2.2.2.1 c6Sub130 (by decide)
    c6Sub120 (by decide) (by decide)

/-- C8: targeted-mode extraction on the synthetic two-scope document
(modelled from the spec, since `_extract_single_fact` is missing from
`xbrl_parser.py`): with the consolidated requirement the consolidated
`NetSales` fact (1000000) is returned, with the non-consolidated
requirement the non-consolidated one (500000). -/
theorem C8_targeted_roundtrip :
    extractSingleFact c8Doc (buildContexts c8Doc) [] plRevenueTags true
      (some "2024-03-31") true true = (some 1000000, some "NetSales", some "CurY")
    ∧ extractSingleFact c8Doc (buildContexts c8Doc) [] plRevenueTags true
        (some "2024-03-31") false true = (some 500000, some "NetSales", some "CurYN") :=
  ⟨by decide, by decide⟩

/-- C9: comprehensive-mode extraction. The current duration date is the
string-maximum truthy end date over duration contexts (upper bound and
attainment), likewise the current instant date over instant contexts; the
prior date is derived by parsing the four leading characters as an integer
and decrementing it, keeping the rest of the string unchanged; and every
entry recorded by `parse_financial_facts` is, for one of the two
consolidation scopes, the result of resolving that item at those current
and prior dates, recorded exactly when at least one period resolved. -/
theorem C9_comprehensive_mode :
    (∀ (l1 l2 : List (String × ContextData)) (cid : String) (cd : ContextData)
        (e : String), cd.is_duration = true → cd.endDate = some e → e ≠ "" →
        ∃ m, (getLatestDates (l1 ++ (cid, cd) :: l2)).1 = some m ∧ e ≤ m)
    ∧ (∀ (contexts : List (String × ContextData)) (m : String),
        (getLatestDates contexts).1 = some m →
        ∃ p ∈ contexts, p.2.is_duration = true ∧ p.2.endDate = some m ∧ m ≠ "")
    ∧ (∀ (l1 l2 : List (String × ContextData)) (cid : String) (cd : ContextData)
        (e : String), cd.is_duration = false → cd.endDate = some e → e ≠ "" →
        ∃ m, (getLatestDates (l1 ++ (cid, cd) :: l2)).2 = some m ∧ e ≤ m)
    ∧ (∀ (contexts : List (String × ContextData)) (m : String),
        (getLatestDates contexts).2 = some m →
        ∃ p ∈ contexts, p.2.is_duration = false ∧ p.2.endDate = some m ∧ m ≠ "")
    ∧ (∀ (d : String) (y : Int), pyInt? (d.take 4) = some y →
        priorDateStr d = .ok (toString (y - 1) ++ d.drop 4))
    ∧ (∀ (doc : XDoc) (itemTags : List (String × List String)) (r : FinFacts)
        (s : String) (items : List (String × (Option PeriodFact × Option PeriodFact)))
        (item : String) (rr : Option PeriodFact × Option PeriodFact),
        parseFinancialFacts doc itemTags = .ok r → (s, items) ∈ r.scopes →
        (item, rr) ∈ items →
        (s = "consolidated" ∨ s = "non_consolidated") ∧
        ∃ tags pd pi, (item, tags) ∈ itemTags ∧
          priorOf (getLatestDates (buildContexts doc)).1 = .ok pd ∧
          priorOf (getLatestDates (buildContexts doc)).2 = .ok pi ∧
          extractItem doc (buildContexts doc) doc.nsmap s item tags
            (getLatestDates (buildContexts doc)).1
            (getLatestDates (buildContexts doc)).2 pd pi = .ok rr ∧
          (rr.1.isSome || rr.2.isSome) = true) := by
  refine ⟨getLatestDates_fst_ub, getLatestDates_fst_attained, getLatestDates_snd_ub,
    getLatestDates_snd_attained, ?_, ?_⟩
  · intro d y h
    unfold priorDateStr
    rw [h]
  · intro doc itemTags r s items item rr hpf hsmem himem
    obtain ⟨pd, pi, hpd, hpi, hs, hbuild⟩ :=
      parseFinancialFacts_scopes doc itemTags r hpf s items hsmem
    obtain ⟨tags, htags, hext, hcond⟩ :=
      buildItems_sound doc (buildContexts doc) doc.nsmap s _ _ pd pi itemTags items
        hbuild item rr himem
    exact ⟨hs, tags, pd, pi, htags, hpd, hpi, hext, hcond⟩

/-- Witness for C9: the prior-date derivation applied at `"2024-03-31"`,
and the attainment conjunct applied at `c9Doc`, whose latest duration end
date evaluates to `"2024-03-31"`. -/
theorem C9_comprehensive_mode_witness :
    priorDateStr "2024-03-31" = .ok "2023-03-31"
    ∧ ∃ p ∈ buildContexts c9Doc, p.2.is_duration = true ∧
        p.2.endDate = some "2024-03-31" ∧ "2024-03-31" ≠ "" := by
  constructor
  · exact C9_comprehensive_mode.2.2.2.2.1 "2024-03-31" 2024 (by decide)
  · exact C9_comprehensive_mode.2.1 (buildContexts c9Doc) "2024-03-31" (by decide)

/-- Membership introduction for `get_target_context_ids`. -/
theorem getTargetContextIds_mem_mpr (contexts : List (String × ContextData))
    (scope : String) (dur : Bool) (date : String) (cid : String) (cd : ContextData)
    (hmem : (cid, cd) ∈ contexts) (hs : cd.scope = scope) (hd : cd.is_duration = dur)
    (he : cd.endDate = some date) : cid ∈ getTargetContextIds contexts scope dur date := by
  unfold getTargetContextIds
  refine List.mem_map.mpr ⟨(cid, cd), List.mem_filter.mpr ⟨hmem, ?_⟩, rfl⟩
  simp [hs, hd, he]

/-- `prevDay?` really is the previous calendar day: `nextDay` undoes it. -/
theorem prevDay_nextDay (y m d : Nat) (p : Nat × Nat × Nat)
    (hv : validDate y m d) (hp : prevDay? y m d = some p) :
    nextDay p = (y, m, d) := by
  obtain ⟨hy, hm1, hm2, hd1, hd2⟩ := hv
  unfold prevDay? at hp
  split at hp
  next hgt =>
    have he := Option.some.injEq .. |>.mp hp
    rw [← he]
    simp only [nextDay]
    rw [if_pos (lt_of_lt_of_le (Nat.sub_lt (lt_of_lt_of_le one_pos (le_of_lt hgt)) one_pos) hd2)]
    rw [Nat.sub_add_cancel (le_of_lt hgt)]
  next hngt =>
    have hd : d = 1 := le_antisymm (Nat.not_lt.mp hngt) hd1
    split at hp
    next hmgt =>
      have he := Option.some.injEq .. |>.mp hp
      rw [← he]
      simp only [nextDay]
      rw [if_neg (lt_irrefl _), if_pos (lt_of_lt_of_le (Nat.sub_lt (lt_trans one_pos hmgt) one_pos) hm2)]
      rw [Nat.sub_add_cancel (le_of_lt hmgt), hd]
    next hnmgt =>
      have hm : m = 1 := le_antisymm (Nat.not_lt.mp hnmgt) hm1
      split at hp
      next hygt =>
        have he := Option.some.injEq .. |>.mp hp
        rw [← he]
        simp only [nextDay]
        have h31 : daysInMonth (y - 1) 12 = 31 := rfl
        rw [h31, if_neg (lt_irrefl _), if_neg (by norm_num : ¬ (12 : Nat) < 12)]
        rw [Nat.sub_add_cancel (le_of_lt hygt), hd, hm]
      next => exact absurd hp (by simp)

/-- C10: when the derived prior date parses as a calendar date with a
predecessor, the prior-period admissible ids are the exact-date ids
extended by the ids one calendar day earlier — in particular a context
dated exactly one day before the prior date is admissible; `nextDay` of
the predecessor is the parsed date itself (so "one day earlier" is true
calendar arithmetic); and current-period admissible ids carry no such
tolerance: every admissible context's end date equals the requested date
exactly. -/
theorem C10_prior_day_tolerance :
    (∀ (contexts : List (String × ContextData)) (scope : String) (nd : Bool)
        (pdate : String) (y m d : Nat) (p : Nat × Nat × Nat),
        parseYmd pdate = some (y, m, d) → prevDay? y m d = some p →
        priorAllowedE contexts scope nd pdate =
          .ok (getTargetContextIds contexts scope nd pdate ++
               getTargetContextIds contexts scope nd (fmtYmd p)))
    ∧ (∀ (contexts : List (String × ContextData)) (scope : String) (nd : Bool)
        (pdate : String) (y m d : Nat) (p : Nat × Nat × Nat) (cid : String)
        (cd : ContextData),
        parseYmd pdate = some (y, m, d) → prevDay? y m d = some p →
        (cid, cd) ∈ contexts → cd.scope = scope → cd.is_duration = nd →
        cd.endDate = some (fmtYmd p) →
        ∃ ids, priorAllowedE contexts scope nd pdate = .ok ids ∧ cid ∈ ids)
    ∧ (∀ (y m d : Nat) (p : Nat × Nat × Nat), validDate y m d →
        prevDay? y m d = some p → nextDay p = (y, m, d))
    ∧ (∀ (contexts : List (String × ContextData)) (scope : String) (nd : Bool)
        (date : String) (cid : String),
        cid ∈ getTargetContextIds contexts scope nd date →
        ∃ cd, (cid, cd) ∈ contexts ∧ cd.endDate = some date) := by
  refine ⟨?_, ?_, prevDay_nextDay, ?_⟩
  · intro contexts scope nd pdate y m d p hparse hprev
    simp [priorAllowedE, hparse, hprev]
  · intro contexts scope nd pdate y m d p cid cd hparse hprev hmem hs hdur hend
    refine ⟨getTargetContextIds contexts scope nd pdate ++
      getTargetContextIds contexts scope nd (fmtYmd p), ?_, ?_⟩
    · simp [priorAllowedE, hparse, hprev]
    · exact List.mem_append.mpr (Or.inr
        (getTargetContextIds_mem_mpr contexts scope nd (fmtYmd p) cid cd hmem hs hdur hend))
  · intro contexts scope nd date cid h
    obtain ⟨cd, hmem, -, -, hend⟩ := mem_getTargetContextIds contexts scope nd date cid h
    exact ⟨cd, hmem, hend⟩

/-- Witness for C10: with prior date `"2024-01-01"`, the context dated
`"2023-12-31"` is admissible, and `nextDay` of the predecessor recovers
the parsed date. -/
theorem C10_prior_day_tolerance_witness :
    (∃ ids, priorAllowedE [("P", c10Ctx)] "consolidated" true "2024-01-01" = .ok ids ∧
      "P" ∈ ids)
    ∧ nextDay (2023, 12, 31) = (2024, 1, 1) := by
  constructor
  · exact C10_prior_day_tolerance.2.1 [("P", c10Ctx)] "consolidated" true "2024-01-01"
      2024 1 1 (2023, 12, 31) "P" c10Ctx (by decide) (by decide)
      (List.mem_singleton.mpr rfl) (by decide) (by decide) (by decide)
  · exact C10_prior_day_tolerance.2.2.1 2024 1 1 (2023, 12, 31) (by decide) (by decide)

end Edinet
